import Mathlib

/-!
Verification development for the `ms-runtime` virtual machine (Rust).

The development shallowly embeds the core of the repository:
* the instruction model (`src/instruction.rs`),
* the bytecode codec (`src/bytecode.rs`, `src/byte_reader.rs`, `src/byte_writer.rs`,
  `Instruction::to_bytes`, `Instruction::from_bytecode`),
* the interpreter (`src/virtual_machine.rs`),
* the module loader (`src/lib.rs::load_modules`, `src/module.rs`).

Modelling conventions:
* Rust `String` values are modelled as their UTF-8 byte sequences (`List Nat`);
  the codec writes a string as a u32 byte-length followed by the raw bytes, and
  `ByteReader::read_string`'s UTF-8 re-validation is dropped because the byte
  sequence itself is the model of the string.
* `u8`/`u32` are `Nat` (well-formedness predicates carry the range bounds where
  they matter); `i32` is `Int` with two's-complement wrapping made explicit.
* `f32` payloads are modelled as their 32-bit patterns (`Nat`); the codec moves
  the four pattern bytes exactly as `to_be_bytes`/`from_le_bytes`-of-reversed do.
  Float arithmetic performed by the interpreter is kept abstract in a `FloatOps`
  parameter, since IEEE-754 semantics is outside the embedding.
* Rust panics become `.err` results; `println!` diagnostics are dropped.
-/

/-- Rust strings, modelled as their UTF-8 byte sequences. -/
abbrev Str := List Nat

/-- `u32::to_be_bytes`, as used by `ByteWriter::write_u32`.  The four produced
bytes depend only on `v % 2^32`, matching the `as u32` casts at call sites. -/
def u32ToBe (v : Nat) : List Nat :=
  [v / 16777216 % 256, v / 65536 % 256, v / 256 % 256, v % 256]

/-- `i32::to_be_bytes` (`ByteWriter::write_i32`): the big-endian bytes of the
two's-complement bit pattern. -/
def i32ToBe (z : Int) : List Nat :=
  u32ToBe (z % 4294967296).toNat

/-- `ByteWriter::write_string`: u32 byte length, then the raw bytes. -/
def strBytes (s : Str) : List Nat :=
  u32ToBe s.length ++ s

/-- Two's-complement wrap into the `i32` range, used to model release-mode
arithmetic on `i32` (overflow behaviour is unspecified by the spec). -/
def wrap32 (z : Int) : Int :=
  (z + 2147483648) % 4294967296 - 2147483648

/-- `ByteReader::read_byte`. -/
def readByte : List Nat → Option (Nat × List Nat)
  | [] => none
  | b :: r => some (b, r)

/-- `ByteReader::read_bytes`: succeeds iff `count` bytes remain. -/
def readBytesN (count : Nat) (bs : List Nat) : Option (List Nat × List Nat) :=
  if count ≤ bs.length then some (bs.take count, bs.drop count) else none

/-- `ByteReader::read_u32`: reads 4 bytes `b0 b1 b2 b3` and reconstructs
`u32::from_le_bytes([b3, b2, b1, b0])`, i.e. the big-endian value. -/
def readU32 : List Nat → Option (Nat × List Nat)
  | b0 :: b1 :: b2 :: b3 :: r => some (b0 * 16777216 + b1 * 65536 + b2 * 256 + b3, r)
  | _ => none

/-- `ByteReader::read_i32`: the same 4 bytes, reinterpreted as two's complement. -/
def readI32 (bs : List Nat) : Option (Int × List Nat) :=
  match readU32 bs with
  | none => none
  | some (v, r) => some (if v < 2147483648 then (v : Int) else (v : Int) - 4294967296, r)

/-- `ByteReader::read_bool`: one byte, nonzero means `true`. -/
def readBool (bs : List Nat) : Option (Bool × List Nat) :=
  match bs with
  | [] => none
  | b :: r => some (b != 0, r)

/-- `ByteReader::read_string`: u32 length, then that many bytes. -/
def readString (bs : List Nat) : Option (Str × List Nat) :=
  match readU32 bs with
  | none => none
  | some (len, r1) =>
    match readBytesN len r1 with
    | none => none
    | some (s, r2) => some (s, r2)

/-- The opcode enumeration of `src/bytecode.rs`.

The source file `src/bytecode.rs` names `0xFD` `If`; `src/instruction.rs`
dispatches on a variant named `Then` with the same role, so the variant is
called `then_` here with the value `0xFD` fixed by both the source table and
the spec's opcode table.

Modelled from the spec: the `Inc`, `Dec` and `Alias` variants are referenced by
`src/instruction.rs` but absent from the `ByteCode` enum in `src/bytecode.rs`;
per the spec they "occupy additional reserved codes" chosen stably by the
implementation.  The unused code points `0x1C`, `0x1D`, `0x1E` are used for
them here. -/
inductive ByteCode where
  | none_ | version | dump | hi | func | call
  | pushConstString | pushConstInteger | pushConstFloat | pushConstBoolean
  | getLocal | setLocal | reserveLocal
  | allocate | getField | setField
  | pop | dup
  | add | sub | mul | div | inc | dec
  | eq | ne | lt | le | gt | ge
  | module | loadModule | getFunction | aliasTag
  | ret | then_ | else_ | loop | break_ | continue_
  deriving DecidableEq, Repr

/-- The fixed discriminant values (`ByteCode as u8`). -/
def ByteCode.toU8 : ByteCode → Nat
  | .none_ => 0x00
  | .version => 0x17
  | .dump => 0x01
  | .hi => 0x02
  | .func => 0x03
  | .call => 0x04
  | .pushConstString => 0x40
  | .pushConstInteger => 0x41
  | .pushConstFloat => 0x42
  | .pushConstBoolean => 0x43
  | .getLocal => 0x09
  | .setLocal => 0x0A
  | .reserveLocal => 0x18
  | .allocate => 0x05
  | .getField => 0x06
  | .setField => 0x07
  | .pop => 0x0B
  | .dup => 0x0C
  | .add => 0x0D
  | .sub => 0x0E
  | .mul => 0x0F
  | .div => 0x10
  | .inc => 0x1C
  | .dec => 0x1D
  | .eq => 0x11
  | .ne => 0x12
  | .lt => 0x13
  | .le => 0x14
  | .gt => 0x15
  | .ge => 0x16
  | .module => 0x1B
  | .loadModule => 0x19
  | .getFunction => 0x1A
  | .aliasTag => 0x1E
  | .ret => 0xFE
  | .then_ => 0xFD
  | .else_ => 0xFC
  | .loop => 0xFB
  | .break_ => 0xFA
  | .continue_ => 0xF9

/-- `ByteCode::from_u8`.  Faithful to `src/bytecode.rs`: there is no arm for
`0xF9` (`Continue`), so that byte decodes to `none`.  The arms for `0x1C`,
`0x1D`, `0x1E` (`Inc`, `Dec`, `Alias`) are modelled from the spec together
with their `ByteCode` variants (see `ByteCode`). -/
def ByteCode.fromU8 (value : Nat) : Option ByteCode :=
  match value with
  | 0x00 => some .none_
  | 0x17 => some .version
  | 0x01 => some .dump
  | 0x02 => some .hi
  | 0x03 => some .func
  | 0x04 => some .call
  | 0x40 => some .pushConstString
  | 0x41 => some .pushConstInteger
  | 0x42 => some .pushConstFloat
  | 0x43 => some .pushConstBoolean
  | 0x09 => some .getLocal
  | 0x0A => some .setLocal
  | 0x18 => some .reserveLocal
  | 0x05 => some .allocate
  | 0x06 => some .getField
  | 0x07 => some .setField
  | 0x0B => some .pop
  | 0x0C => some .dup
  | 0x0D => some .add
  | 0x0E => some .sub
  | 0x0F => some .mul
  | 0x10 => some .div
  | 0x1C => some .inc
  | 0x1D => some .dec
  | 0x11 => some .eq
  | 0x12 => some .ne
  | 0x13 => some .lt
  | 0x14 => some .le
  | 0x15 => some .gt
  | 0x16 => some .ge
  | 0x1B => some .module
  | 0x19 => some .loadModule
  | 0x1A => some .getFunction
  | 0x1E => some .aliasTag
  | 0xFE => some .ret
  | 0xFD => some .then_
  | 0xFC => some .else_
  | 0xFB => some .loop
  | 0xFA => some .break_
  | _ => none

mutual
/-- The instruction tree of `src/instruction.rs` (`enum Instruction`).
`Code = Vec<Instruction>` is embedded as the mutually inductive `Code` so that
recursion over the tree is structural. -/
inductive Instruction where
  | none_ : Instruction
  | version (major minor patch : Nat) : Instruction
  | dump : Instruction
  | hi : Instruction
  | fn (name : Str) (code : Code) : Instruction
  | call (module function : Str) (paramCount : Nat) : Instruction
  | pushConstString (value : Str) : Instruction
  | pushConstInteger (value : Int) : Instruction
  | pushConstFloat (value : Nat) : Instruction
  | pushConstBoolean (value : Bool) : Instruction
  | getLocal (index : Nat) : Instruction
  | setLocal (index : Nat) : Instruction
  | reserveLocal (size : Nat) : Instruction
  | allocate (fields : Nat) : Instruction
  | getField (index : Nat) : Instruction
  | setField (index : Nat) : Instruction
  | pop : Instruction
  | dup : Instruction
  | add : Instruction
  | sub : Instruction
  | mul : Instruction
  | div : Instruction
  | inc : Instruction
  | dec : Instruction
  | eq : Instruction
  | ne : Instruction
  | lt : Instruction
  | le : Instruction
  | gt : Instruction
  | ge : Instruction
  | module (name : Str) (code : Code) : Instruction
  | loadModule (name : Str) (code : Code) : Instruction
  | getFunction (name : Str) (aliasName : Option Str) : Instruction
  | ret : Instruction
  | then_ (thenBlock elseBlock : Code) : Instruction
  | loop (block : Code) : Instruction
  | break_ : Instruction
  | continue_ : Instruction

/-- `Code = Vec<Instruction>`. -/
inductive Code where
  | nil : Code
  | cons (i : Instruction) (c : Code) : Code
end

mutual
/-- `Instruction::to_bytes`: one opcode byte, then the operands; compound
bodies are framed by a u32 byte length (written before the name string for
`Fn`/`Module`/`LoadModule`, exactly as the source does). -/
def toBytes : Instruction → List Nat
  | .none_ => [ByteCode.none_.toU8]
  | .version major minor patch => [ByteCode.version.toU8, major, minor, patch]
  | .dump => [ByteCode.dump.toU8]
  | .hi => [ByteCode.hi.toU8]
  | .fn name code =>
    ByteCode.func.toU8 :: (u32ToBe (codeToBytes code).length ++ (strBytes name ++ codeToBytes code))
  | .call module function paramCount =>
    ByteCode.call.toU8 :: (strBytes module ++ (strBytes function ++ u32ToBe paramCount))
  | .pushConstString value => ByteCode.pushConstString.toU8 :: strBytes value
  | .pushConstInteger value => ByteCode.pushConstInteger.toU8 :: i32ToBe value
  | .pushConstFloat value => ByteCode.pushConstFloat.toU8 :: u32ToBe value
  | .pushConstBoolean value => [ByteCode.pushConstBoolean.toU8, if value then 1 else 0]
  | .getLocal index => ByteCode.getLocal.toU8 :: u32ToBe index
  | .setLocal index => ByteCode.setLocal.toU8 :: u32ToBe index
  | .reserveLocal size => ByteCode.reserveLocal.toU8 :: u32ToBe size
  | .allocate fields => ByteCode.allocate.toU8 :: u32ToBe fields
  | .getField index => ByteCode.getField.toU8 :: u32ToBe index
  | .setField index => ByteCode.setField.toU8 :: u32ToBe index
  | .pop => [ByteCode.pop.toU8]
  | .dup => [ByteCode.dup.toU8]
  | .add => [ByteCode.add.toU8]
  | .sub => [ByteCode.sub.toU8]
  | .mul => [ByteCode.mul.toU8]
  | .div => [ByteCode.div.toU8]
  | .inc => [ByteCode.inc.toU8]
  | .dec => [ByteCode.dec.toU8]
  | .eq => [ByteCode.eq.toU8]
  | .ne => [ByteCode.ne.toU8]
  | .lt => [ByteCode.lt.toU8]
  | .le => [ByteCode.le.toU8]
  | .gt => [ByteCode.gt.toU8]
  | .ge => [ByteCode.ge.toU8]
  | .module name code =>
    ByteCode.module.toU8 :: (u32ToBe (codeToBytes code).length ++ (strBytes name ++ codeToBytes code))
  | .loadModule name code =>
    ByteCode.loadModule.toU8 :: (u32ToBe (codeToBytes code).length ++ (strBytes name ++ codeToBytes code))
  | .getFunction name aliasName =>
    ByteCode.getFunction.toU8 ::
      (strBytes name ++
        match aliasName with
        | none => []
        | some a => ByteCode.aliasTag.toU8 :: strBytes a)
  | .ret => [ByteCode.ret.toU8]
  | .then_ thenBlock elseBlock =>
    ByteCode.then_.toU8 ::
      (u32ToBe (codeToBytes thenBlock).length ++ (codeToBytes thenBlock ++
        match elseBlock with
        | .nil => []
        | _ => ByteCode.else_.toU8 ::
            (u32ToBe (codeToBytes elseBlock).length ++ codeToBytes elseBlock)))
  | .loop block =>
    ByteCode.loop.toU8 :: (u32ToBe (codeToBytes block).length ++ codeToBytes block)
  | .break_ => [ByteCode.break_.toU8]
  | .continue_ => [ByteCode.continue_.toU8]

/-- `Instruction::code_to_bytes`: concatenation of the per-instruction bytes. -/
def codeToBytes : Code → List Nat
  | .nil => []
  | .cons i c => toBytes i ++ codeToBytes c
end

/-- `Instruction::from_bytecode`, the decode loop, with an explicit fuel
counter making the recursion structural.  One unit of fuel is consumed per
decoded instruction and nested bodies are decoded with the remaining fuel;
since every instruction consumes at least one byte, fuel exceeding the byte
count never runs out (the `"out of fuel"` arm is unreachable from
`fromBytecode`).  Error messages follow the source; the invalid-opcode message
renders the byte in decimal rather than the source's hexadecimal. -/
def decodeGo : Nat → List Nat → Except String Code
  | _, [] => .ok .nil
  | 0, _ :: _ => .error "out of fuel"
  | f + 1, b :: bs =>
    match ByteCode.fromU8 b with
    | none => .error ("Invalid instruction: " ++ toString b)
    | some .none_ => Except.map (Code.cons .none_) (decodeGo f bs)
    | some .version =>
      match readByte bs with
      | none => .error "Expected major version"
      | some (major, r1) =>
        match readByte r1 with
        | none => .error "Expected minor version"
        | some (minor, r2) =>
          match readByte r2 with
          | none => .error "Expected patch version"
          | some (patch, r3) =>
            Except.map (Code.cons (.version major minor patch)) (decodeGo f r3)
    | some .dump => Except.map (Code.cons .dump) (decodeGo f bs)
    | some .hi => Except.map (Code.cons .hi) (decodeGo f bs)
    | some .func =>
      match readU32 bs with
      | none => .error "Expected function code length"
      | some (len, r1) =>
        match readString r1 with
        | none => .error "Expected function name"
        | some (name, r2) =>
          match readBytesN len r2 with
          | none => .error "Expected function code"
          | some (fnCode, r3) =>
            match decodeGo f fnCode with
            | .error e => .error e
            | .ok blk => Except.map (Code.cons (.fn name blk)) (decodeGo f r3)
    | some .call =>
      match readString bs with
      | none => .error "Expected module name"
      | some (module, r1) =>
        match readString r1 with
        | none => .error "Expected function name"
        | some (function, r2) =>
          match readU32 r2 with
          | none => .error "Expected parameter count"
          | some (paramCount, r3) =>
            Except.map (Code.cons (.call module function paramCount)) (decodeGo f r3)
    | some .pushConstString =>
      match readString bs with
      | none => .error "Expected string value"
      | some (value, r1) => Except.map (Code.cons (.pushConstString value)) (decodeGo f r1)
    | some .pushConstInteger =>
      match readI32 bs with
      | none => .error "Expected integer value"
      | some (value, r1) => Except.map (Code.cons (.pushConstInteger value)) (decodeGo f r1)
    | some .pushConstFloat =>
      match readU32 bs with
      | none => .error "Expected float value"
      | some (value, r1) => Except.map (Code.cons (.pushConstFloat value)) (decodeGo f r1)
    | some .pushConstBoolean =>
      match readBool bs with
      | none => .error "Expected boolean value"
      | some (value, r1) => Except.map (Code.cons (.pushConstBoolean value)) (decodeGo f r1)
    | some .getLocal =>
      match readU32 bs with
      | none => .error "Expected local index"
      | some (index, r1) => Except.map (Code.cons (.getLocal index)) (decodeGo f r1)
    | some .allocate =>
      match readU32 bs with
      | none => .error "Expected number of fields"
      | some (fields, r1) => Except.map (Code.cons (.allocate fields)) (decodeGo f r1)
    | some .getField =>
      match readU32 bs with
      | none => .error "Expected field index"
      | some (index, r1) => Except.map (Code.cons (.getField index)) (decodeGo f r1)
    | some .setField =>
      match readU32 bs with
      | none => .error "Expected field index"
      | some (index, r1) => Except.map (Code.cons (.setField index)) (decodeGo f r1)
    | some .setLocal =>
      match readU32 bs with
      | none => .error "Expected local index"
      | some (index, r1) => Except.map (Code.cons (.setLocal index)) (decodeGo f r1)
    | some .reserveLocal =>
      match readU32 bs with
      | none => .error "Expected local size"
      | some (size, r1) => Except.map (Code.cons (.reserveLocal size)) (decodeGo f r1)
    | some .pop => Except.map (Code.cons .pop) (decodeGo f bs)
    | some .dup => Except.map (Code.cons .dup) (decodeGo f bs)
    | some .add => Except.map (Code.cons .add) (decodeGo f bs)
    | some .sub => Except.map (Code.cons .sub) (decodeGo f bs)
    | some .mul => Except.map (Code.cons .mul) (decodeGo f bs)
    | some .div => Except.map (Code.cons .div) (decodeGo f bs)
    | some .inc => Except.map (Code.cons .inc) (decodeGo f bs)
    | some .dec => Except.map (Code.cons .dec) (decodeGo f bs)
    | some .eq => Except.map (Code.cons .eq) (decodeGo f bs)
    | some .ne => Except.map (Code.cons .ne) (decodeGo f bs)
    | some .lt => Except.map (Code.cons .lt) (decodeGo f bs)
    | some .le => Except.map (Code.cons .le) (decodeGo f bs)
    | some .gt => Except.map (Code.cons .gt) (decodeGo f bs)
    | some .ge => Except.map (Code.cons .ge) (decodeGo f bs)
    | some .module =>
      match readU32 bs with
      | none => .error "Expected module code length"
      | some (len, r1) =>
        match readString r1 with
        | none => .error "Expected module name"
        | some (name, r2) =>
          match readBytesN len r2 with
          | none => .error "Expected module code"
          | some (moduleCode, r3) =>
            match decodeGo f moduleCode with
            | .error e => .error e
            | .ok blk => Except.map (Code.cons (.module name blk)) (decodeGo f r3)
    | some .loadModule =>
      match readU32 bs with
      | none => .error "Expected module code length"
      | some (len, r1) =>
        match readString r1 with
        | none => .error "Expected module name"
        | some (name, r2) =>
          match readBytesN len r2 with
          | none => .error "Expected module code"
          | some (moduleCode, r3) =>
            match decodeGo f moduleCode with
            | .error e => .error e
            | .ok blk => Except.map (Code.cons (.loadModule name blk)) (decodeGo f r3)
    | some .getFunction =>
      match readString bs with
      | none => .error "Expected function name"
      | some (name, r1) =>
        -- save_position / speculative read of an Alias tag; on the aliased
        -- path the source `break`s out of the decode loop.
        match readByte r1 with
        | some (b2, r2) =>
          if ByteCode.fromU8 b2 = some .aliasTag then
            match readString r2 with
            | none => .error "Expected alias name"
            | some (aliasStr, _) => .ok (Code.cons (.getFunction name (some aliasStr)) .nil)
          else
            Except.map (Code.cons (.getFunction name none)) (decodeGo f r1)
        | none => Except.map (Code.cons (.getFunction name none)) (decodeGo f r1)
    | some .aliasTag => .error "Invalid instruction (as) outside of function"
    | some .ret => Except.map (Code.cons .ret) (decodeGo f bs)
    | some .then_ =>
      match readU32 bs with
      | none => .error "Expected block code length"
      | some (len, r1) =>
        match readBytesN len r1 with
        | none => .error "Expected block code"
        | some (blockBytes, r2) =>
          match decodeGo f blockBytes with
          | .error e => .error e
          | .ok thenBlock =>
            -- save_position / speculative read of an Else tag
            match readByte r2 with
            | some (b2, r3) =>
              if ByteCode.fromU8 b2 = some .else_ then
                match readU32 r3 with
                | none => .error "Expected block code length"
                | some (len2, r4) =>
                  match readBytesN len2 r4 with
                  | none => .error "Expected block code"
                  | some (elseBytes, r5) =>
                    match decodeGo f elseBytes with
                    | .error e => .error e
                    | .ok elseBlock =>
                      Except.map (Code.cons (.then_ thenBlock elseBlock)) (decodeGo f r5)
              else
                Except.map (Code.cons (.then_ thenBlock .nil)) (decodeGo f r2)
            | none => Except.map (Code.cons (.then_ thenBlock .nil)) (decodeGo f r2)
    | some .else_ => .error "Invalid instruction (else) outside of then block"
    | some .loop =>
      match readU32 bs with
      | none => .error "Expected block code length"
      | some (len, r1) =>
        match readBytesN len r1 with
        | none => .error "Expected block code"
        | some (blockBytes, r2) =>
          match decodeGo f blockBytes with
          | .error e => .error e
          | .ok block => Except.map (Code.cons (.loop block)) (decodeGo f r2)
    | some .break_ => Except.map (Code.cons .break_) (decodeGo f bs)
    -- dead arm, faithful to the source: `from_u8` never returns `Continue`
    | some .continue_ => Except.map (Code.cons .continue_) (decodeGo f bs)

/-- `Instruction::from_bytecode`.  The initial fuel `bs.length + 1` always
suffices because each decoded instruction consumes at least one byte. -/
def fromBytecode (bs : List Nat) : Except String Code :=
  decodeGo (bs.length + 1) bs

deriving instance DecidableEq for Instruction

/-- The value model of `src/value.rs`.  `Object` handles (`Arc<Mutex<Object>>`)
are modelled as indices into an explicit heap carried by the VM state, so that
shared mutation through several handles is visible to all of them. -/
inductive Value where
  | null : Value
  | boolean (b : Bool) : Value
  | integer (i : Int) : Value
  | float (bits : Nat) : Value
  | string (s : Str) : Value
  | object (ref : Nat) : Value
  deriving DecidableEq, Repr

/-- `enum Object`: a dense field vector, or an opaque native payload. -/
inductive Obj where
  | values (fields : List Value) : Obj
  | native : Obj
  deriving DecidableEq, Repr

/-- Abstract IEEE-754 `f32` operations on 32-bit patterns.  The interpreter is
parameterised by them; no claim in this development depends on their values. -/
structure FloatOps where
  fadd : Nat → Nat → Nat
  fsub : Nat → Nat → Nat
  fmul : Nat → Nat → Nat
  fdiv : Nat → Nat → Nat
  finc : Nat → Nat
  fdec : Nat → Nat
  feq : Nat → Nat → Bool
  fne : Nat → Nat → Bool
  flt : Nat → Nat → Bool
  fle : Nat → Nat → Bool
  fgt : Nat → Nat → Bool
  fge : Nat → Nat → Bool

/-- The host-callable shape `fn(Vec<Value>) -> Option<Value>`. -/
abbrev NativeFn := List Value → Option Value

/-- `enum Function` (`src/function.rs`): a `Code` body or a native callable.
The redundant `name` field (the key of the enclosing map) is dropped. -/
inductive Fnc where
  | code (c : Code) : Fnc
  | native (f : NativeFn) : Fnc

/-- `Module::functions` (`src/module.rs`): name-keyed function map, modelled as
an association list searched from the front. -/
abbrev VmModule := List (Str × Fnc)

/-- `DyModule::fns` (`src/dymodule.rs`); the `libloading` handle is dropped. -/
abbrev DyMod := List (Str × NativeFn)

/-- `HashMap::get` on an association list. -/
def lookupA {α : Type} : List (Str × α) → Str → Option α
  | [], _ => none
  | (k, v) :: t, key => if k = key then some v else lookupA t key

/-- `struct VirtualMachine` (`src/virtual_machine.rs`), plus the explicit heap
modelling the `Arc<Mutex<Object>>` cells reachable from the state.  The operand
stack is a list whose head is the top (the end of the Rust `Vec`); a locals
frame keeps `Vec` order, so list position equals local index, and the head of
`localVars` is the current (innermost) frame. -/
structure VMState where
  stack : List Value
  modules : List (Str × VmModule)
  dymodules : List (Str × DyMod)
  localVars : List (List Value)
  callBreak : Bool
  callContinue : Bool
  callReturn : Bool
  heap : List Obj

/-- The flag reset performed at every `VirtualMachine::execute` entry. -/
def clearFlags (s : VMState) : VMState :=
  { s with callBreak := false, callContinue := false, callReturn := false }

/-- Outcome of running a `Code` sequence: normal completion (including an early
exit on a control-flow flag), a fatal runtime error (a Rust panic), or fuel
exhaustion of the embedding. -/
inductive Res where
  | ok (s : VMState) : Res
  | err (msg : String) : Res
  | timeout : Res

/-- `true` exactly on `.err`. -/
def Res.isErr : Res → Bool
  | .err _ => true
  | _ => false

/-- The interpreter loop of `VirtualMachine::execute` (without its entry flag
reset; see `execute`), with `VirtualMachine::call` inlined at the `Call` arm.
One unit of fuel bounds the nesting depth of block/function entries plus the
number of instructions run; every recursive call decreases it, keeping the
recursion structural.  Rust panics are `.err` with the panic message
(`Dump`/`Hi` printing is dropped; the integer-overflow guards of `Div` mirror
the panics Rust performs in every build profile, while `Add`/`Sub`/`Mul`/
`Inc`/`Dec` use release-mode two's-complement wrapping, the spec leaving
overflow unspecified). -/
def exec (fo : FloatOps) : Nat → Code → VMState → Res
  | 0, _, _ => .timeout
  | _ + 1, .nil, s => .ok s
  | f + 1, .cons i rest, s =>
    match i with
    | .none_ => exec fo f rest s
    | .version _ _ _ => exec fo f rest s
    | .dump => exec fo f rest s
    | .hi => exec fo f rest s
    | .fn _ _ => .err "Function declaration not allowed here"
    | .call module function paramCount =>
      if paramCount ≤ s.stack.length then
        -- split_off(len - n): the last n pushed values, in push order
        let args := (s.stack.take paramCount).reverse
        let s1 := { s with stack := s.stack.drop paramCount }
        -- VirtualMachine::call, inlined: static modules first, then dynamic
        match lookupA s1.modules module with
        | some md =>
          match lookupA md function with
          | some (.code c) =>
            match exec fo f c (clearFlags { s1 with localVars := args :: s1.localVars }) with
            | .ok s2 =>
              -- frame popped, then the Call arm clears all three flags
              exec fo f rest (clearFlags { s2 with localVars := s2.localVars.tail })
            | .err e => .err e
            | .timeout => .timeout
          | some (.native nf) =>
            match nf args with
            | some v => exec fo f rest (clearFlags { s1 with stack := v :: s1.stack })
            | none => exec fo f rest (clearFlags s1)
          | none => .err "Function not found"
        | none =>
          match lookupA s1.dymodules module with
          | some dm =>
            match lookupA dm function with
            | some nf =>
              match nf args with
              | some v => exec fo f rest (clearFlags { s1 with stack := v :: s1.stack })
              | none => exec fo f rest (clearFlags s1)
            | none => .err "Function not found"
          | none => .err "Module not found"
      else .err "attempt to subtract with overflow"
    | .pushConstString value => exec fo f rest { s with stack := .string value :: s.stack }
    | .pushConstInteger value => exec fo f rest { s with stack := .integer value :: s.stack }
    | .pushConstFloat value => exec fo f rest { s with stack := .float value :: s.stack }
    | .pushConstBoolean value => exec fo f rest { s with stack := .boolean value :: s.stack }
    | .getLocal index =>
      match s.localVars with
      | locals :: _ =>
        match locals.get? index with
        | some v => exec fo f rest { s with stack := v :: s.stack }
        | none => .err "index out of bounds"
      | [] => .err "Local variable not found"
    | .setLocal index =>
      match s.stack with
      | v :: st =>
        match s.localVars with
        | locals :: lrest =>
          if index < locals.length then
            exec fo f rest { s with stack := st, localVars := locals.set index v :: lrest }
          else .err "index out of bounds"
        | [] => .err "Local variable not found"
      | [] => .err "Local variable not found"
    | .reserveLocal size =>
      match s.localVars with
      | locals :: lrest =>
        exec fo f rest
          { s with localVars :=
              (locals.take size ++ List.replicate (size - locals.length) .null) :: lrest }
      | [] => .err "Local variable not found"
    | .allocate fields =>
      exec fo f rest
        { s with stack := .object s.heap.length :: s.stack,
                 heap := s.heap ++ [.values (List.replicate fields .null)] }
    | .getField index =>
      match s.stack with
      | v :: st =>
        match v with
        | .object ref =>
          match s.heap.get? ref with
          | some (.values fields) =>
            match fields.get? index with
            | some fv => exec fo f rest { s with stack := fv :: st }
            | none => .err "Field not found"
          | some .native => .err "Expected an object with fields"
          | none => .err "Expected an object"
        | _ => .err "Expected an object"
      | [] => .err "No elements in the stack expected an object"
    | .setField index =>
      match s.stack with
      | v :: st =>
        match st with
        | obj :: _ =>
          match obj with
          | .object ref =>
            match s.heap.get? ref with
            | some (.values fields) =>
              if index < fields.length then
                exec fo f rest
                  { s with stack := st,
                           heap := s.heap.set ref (.values (fields.set index v)) }
              else .err "Field not found"
            | some .native => .err "Expected an object with fields"
            | none => .err "Expected an object"
          | _ => .err "Expected an object"
        | [] => .err "No elements in the stack expected an object"
      | [] => .err "No elements in the stack expected a value"
    | .pop => exec fo f rest { s with stack := s.stack.tail }
    | .dup =>
      match s.stack with
      | v :: _ => exec fo f rest { s with stack := v :: s.stack }
      | [] => .err "No elements in the stack"
    | .add =>
      match s.stack with
      | a :: b :: st =>
        match a, b with
        | .integer a, .integer b =>
          exec fo f rest { s with stack := .integer (wrap32 (a + b)) :: st }
        | .float a, .float b => exec fo f rest { s with stack := .float (fo.fadd a b) :: st }
        | .string a, .string b => exec fo f rest { s with stack := .string (a ++ b) :: st }
        | _, _ => .err "Invalid types"
      | _ => .err "No elements in the stack"
    | .sub =>
      match s.stack with
      | a :: b :: st =>
        match a, b with
        | .integer a, .integer b =>
          exec fo f rest { s with stack := .integer (wrap32 (b - a)) :: st }
        | .float a, .float b => exec fo f rest { s with stack := .float (fo.fsub b a) :: st }
        | _, _ => .err "Invalid types"
      | _ => .err "No elements in the stack"
    | .mul =>
      match s.stack with
      | a :: b :: st =>
        match a, b with
        | .integer a, .integer b =>
          exec fo f rest { s with stack := .integer (wrap32 (a * b)) :: st }
        | .float a, .float b => exec fo f rest { s with stack := .float (fo.fmul a b) :: st }
        | _, _ => .err "Invalid types"
      | _ => .err "No elements in the stack"
    | .div =>
      match s.stack with
      | a :: b :: st =>
        match a, b with
        | .integer a, .integer b =>
          if b = 0 then .err "attempt to divide by zero"
          else if a = -2147483648 && b = -1 then .err "attempt to divide with overflow"
          else exec fo f rest { s with stack := .integer (Int.tdiv a b) :: st }
        | .float a, .float b => exec fo f rest { s with stack := .float (fo.fdiv a b) :: st }
        | _, _ => .err "Invalid types"
      | _ => .err "No elements in the stack"
    | .inc =>
      match s.stack with
      | a :: st =>
        match a with
        | .integer a => exec fo f rest { s with stack := .integer (wrap32 (a + 1)) :: st }
        | .float a => exec fo f rest { s with stack := .float (fo.finc a) :: st }
        | _ => .err "Invalid types"
      | [] => .err "No elements in the stack"
    | .dec =>
      match s.stack with
      | a :: st =>
        match a with
        | .integer a => exec fo f rest { s with stack := .integer (wrap32 (a - 1)) :: st }
        | .float a => exec fo f rest { s with stack := .float (fo.fdec a) :: st }
        | _ => .err "Invalid types"
      | [] => .err "No elements in the stack"
    | .eq =>
      match s.stack with
      | a :: b :: st =>
        match a, b with
        | .integer a, .integer b =>
          exec fo f rest { s with stack := .boolean (decide (a = b)) :: st }
        | .float a, .float b => exec fo f rest { s with stack := .boolean (fo.feq a b) :: st }
        | .string a, .string b =>
          exec fo f rest { s with stack := .boolean (decide (a = b)) :: st }
        | .boolean a, .boolean b =>
          exec fo f rest { s with stack := .boolean (decide (a = b)) :: st }
        | _, _ => .err "Invalid types"
      | _ => .err "No elements in the stack"
    | .ne =>
      match s.stack with
      | a :: b :: st =>
        match a, b with
        | .integer a, .integer b =>
          exec fo f rest { s with stack := .boolean (decide (a ≠ b)) :: st }
        | .float a, .float b => exec fo f rest { s with stack := .boolean (fo.fne a b) :: st }
        | .string a, .string b =>
          exec fo f rest { s with stack := .boolean (decide (a ≠ b)) :: st }
        | .boolean a, .boolean b =>
          exec fo f rest { s with stack := .boolean (decide (a ≠ b)) :: st }
        | _, _ => .err "Invalid types"
      | _ => .err "No elements in the stack"
    | .lt =>
      match s.stack with
      | a :: b :: st =>
        match a, b with
        | .integer a, .integer b =>
          exec fo f rest { s with stack := .boolean (decide (a < b)) :: st }
        | .float a, .float b => exec fo f rest { s with stack := .boolean (fo.flt a b) :: st }
        | _, _ => .err "Invalid types"
      | _ => .err "No elements in the stack"
    | .le =>
      match s.stack with
      | a :: b :: st =>
        match a, b with
        | .integer a, .integer b =>
          exec fo f rest { s with stack := .boolean (decide (a ≤ b)) :: st }
        | .float a, .float b => exec fo f rest { s with stack := .boolean (fo.fle a b) :: st }
        | _, _ => .err "Invalid types"
      | _ => .err "No elements in the stack"
    | .gt =>
      match s.stack with
      | a :: b :: st =>
        match a, b with
        | .integer a, .integer b =>
          exec fo f rest { s with stack := .boolean (decide (b < a)) :: st }
        | .float a, .float b => exec fo f rest { s with stack := .boolean (fo.fgt a b) :: st }
        | _, _ => .err "Invalid types"
      | _ => .err "No elements in the stack"
    | .ge =>
      match s.stack with
      | a :: b :: st =>
        match a, b with
        | .integer a, .integer b =>
          exec fo f rest { s with stack := .boolean (decide (b ≤ a)) :: st }
        | .float a, .float b => exec fo f rest { s with stack := .boolean (fo.fge a b) :: st }
        | _, _ => .err "Invalid types"
      | _ => .err "No elements in the stack"
    | .module _ _ => .err "Module call not allowed here"
    | .loadModule _ _ => .err "LoadModule call not allowed here"
    | .getFunction _ _ => .err "GetFunction call not allowed here"
    | .ret => .ok { s with callReturn := true }
    | .then_ thenBlock elseBlock =>
      match s.stack with
      | v :: st =>
        match v with
        | .boolean bv =>
          match
            (if bv then exec fo f thenBlock (clearFlags { s with stack := st })
             else exec fo f elseBlock (clearFlags { s with stack := st })) with
          | .ok s2 =>
            if s2.callReturn || s2.callBreak || s2.callContinue then .ok s2
            else exec fo f rest s2
          | .err e => .err e
          | .timeout => .timeout
        | _ => .err "Invalid value"
      | [] => .err "No elements in the stack"
    | .loop block =>
      match exec fo f block (clearFlags s) with
      | .ok s2 =>
        if s2.callBreak then
          -- `break` leaves the loop; the flag is not reset here
          exec fo f rest s2
        else if s2.callContinue then exec fo f (Code.cons (.loop block) rest) s2
        else if s2.callReturn then .ok s2
        else exec fo f (Code.cons (.loop block) rest) s2
      | .err e => .err e
      | .timeout => .timeout
    | .break_ => .ok { s with callBreak := true }
    | .continue_ => .ok { s with callContinue := true }

/-- `VirtualMachine::execute`: reset the three control-flow flags, then run the
loop. -/
def execute (fo : FloatOps) (fuel : Nat) (code : Code) (s : VMState) : Res :=
  exec fo fuel code (clearFlags s)

/-- The body-to-module step used by `load_modules` for a `Module` instruction.

Modelled from the spec: `load_modules` in `src/lib.rs` invokes a
`Module::try_from(Instruction)` conversion that is not present under `src/`
(only the `Vec<u8>`/`Vec<Instruction>` conversions are); per spec §4.5 each
`Module` declaration yields a static module from its `Fn` children and any
other child is fatal.  Insertions are modelled by prepending, so that a later
duplicate name shadows an earlier one, as `HashMap::insert` does. -/
def moduleFromCode : Code → List (Str × Fnc) → Except String VmModule
  | .nil, acc => .ok acc
  | .cons (.fn name c) rest, acc => moduleFromCode rest ((name, .code c) :: acc)
  | .cons _ _, _ => .error "Invalid instruction type"

/-- The `GetFunction` resolution loop of `load_modules`.  `symtab` models
symbol lookup in the opened shared library (`libloading::Library::get`). -/
def resolveFns (symtab : Str → Option NativeFn) : Code → List (Str × NativeFn) →
    Except String DyMod
  | .nil, acc => .ok acc
  | .cons (.getFunction name aliasName) rest, acc =>
    match symtab name with
    | none => .error "symbol resolution failure"
    | some f =>
      match aliasName with
      | some a => resolveFns symtab rest ((a, f) :: acc)
      | none => resolveFns symtab rest ((name, f) :: acc)
  | .cons _ _, _ => .error "Invalid instruction type, expected (fn.get)"

/-- The declaration loop of `load_modules` over everything after the version
header.  `libs` models `libloading::Library::new`: the symbol table of the
named shared library, or `none` when the library cannot be opened. -/
def loadDecls (libs : Str → Option (Str → Option NativeFn)) :
    Code → Except String (List VmModule × List DyMod)
  | .nil => .ok ([], [])
  | .cons d rest =>
    match d with
    | .module _ c =>
      match moduleFromCode c [] with
      | .error e => .error e
      | .ok m =>
        match loadDecls libs rest with
        | .ok (ms, ds) => .ok (m :: ms, ds)
        | .error e => .error e
    | .loadModule name c =>
      match libs name with
      | none => .error "library open failure"
      | some symtab =>
        match resolveFns symtab c [] with
        | .error e => .error e
        | .ok fns =>
          match loadDecls libs rest with
          | .ok (ms, ds) => .ok (ms, fns :: ds)
          | .error e => .error e
    | _ => .error "Invalid instruction type, expected (mod) or (mod.load)"

/-- `load_modules` (`src/lib.rs`): validate the version header against the
host's `CARGO_PKG_VERSION` triple `host`, then load the declarations. -/
def loadModules (host : Nat × Nat × Nat) (libs : Str → Option (Str → Option NativeFn))
    (code : Code) : Except String (List VmModule × List DyMod) :=
  match code with
  | .nil => .error "Missing version"
  | .cons v decls =>
    match v with
    | .version major minor patch =>
      if major ≠ host.1 ∨ minor ≠ host.2.1 ∨ patch ≠ host.2.2 then
        .error "Invalid version"
      else loadDecls libs decls
    | _ => .error "Invalid version"

/-- `impl PartialEq for Instruction` (`src/instruction.rs`): every arm pairs
two instructions of one variant, binds all operands to wildcards and returns
`true`; the catch-all returns `false`. -/
def instrEq : Instruction → Instruction → Bool
  | .none_, .none_ => true
  | .version _ _ _, .version _ _ _ => true
  | .dump, .dump => true
  | .hi, .hi => true
  | .fn _ _, .fn _ _ => true
  | .call _ _ _, .call _ _ _ => true
  | .pushConstString _, .pushConstString _ => true
  | .pushConstInteger _, .pushConstInteger _ => true
  | .pushConstFloat _, .pushConstFloat _ => true
  | .pushConstBoolean _, .pushConstBoolean _ => true
  | .getLocal _, .getLocal _ => true
  | .setLocal _, .setLocal _ => true
  | .reserveLocal _, .reserveLocal _ => true
  | .allocate _, .allocate _ => true
  | .getField _, .getField _ => true
  | .setField _, .setField _ => true
  | .pop, .pop => true
  | .dup, .dup => true
  | .add, .add => true
  | .sub, .sub => true
  | .mul, .mul => true
  | .div, .div => true
  | .inc, .inc => true
  | .dec, .dec => true
  | .eq, .eq => true
  | .ne, .ne => true
  | .lt, .lt => true
  | .le, .le => true
  | .gt, .gt => true
  | .ge, .ge => true
  | .module _ _, .module _ _ => true
  | .loadModule _ _, .loadModule _ _ => true
  | .getFunction _ _, .getFunction _ _ => true
  | .ret, .ret => true
  | .then_ _ _, .then_ _ _ => true
  | .loop _, .loop _ => true
  | .break_, .break_ => true
  | .continue_, .continue_ => true
  | _, _ => false

/-- The variant tag of `impl Hash for Instruction`: operands are ignored and
only the discriminant is hashed. -/
def tag : Instruction → Nat
  | .none_ => 0
  | .version _ _ _ => 1
  | .dump => 2
  | .hi => 3
  | .fn _ _ => 4
  | .call _ _ _ => 5
  | .pushConstString _ => 6
  | .pushConstInteger _ => 7
  | .pushConstFloat _ => 8
  | .pushConstBoolean _ => 9
  | .getLocal _ => 10
  | .setLocal _ => 11
  | .reserveLocal _ => 12
  | .allocate _ => 13
  | .getField _ => 14
  | .setField _ => 15
  | .pop => 16
  | .dup => 17
  | .add => 18
  | .sub => 19
  | .mul => 20
  | .div => 21
  | .inc => 22
  | .dec => 23
  | .eq => 24
  | .ne => 25
  | .lt => 26
  | .le => 27
  | .gt => 28
  | .ge => 29
  | .module _ _ => 30
  | .loadModule _ _ => 31
  | .getFunction _ _ => 32
  | .ret => 33
  | .then_ _ _ => 34
  | .loop _ => 35
  | .break_ => 36
  | .continue_ => 37

/-- Instructions that encode as an opcode followed by an alias tag that the
decoder consumes by lookahead. -/
def isAliasGF : Instruction → Bool
  | .getFunction _ (some _) => true
  | _ => false

mutual
/-- Wire well-formedness of operands: `u8`/`u32` fields fit their Rust types,
`i32` constants are in two's-complement range, and framed body byte lengths
fit the `as u32` casts of `to_bytes`.  Every tree the assembler or decoder can
produce satisfies this by the Rust types alone. -/
def wfI : Instruction → Bool
  | .none_ => true
  | .version major minor patch => major < 256 && minor < 256 && patch < 256
  | .dump => true
  | .hi => true
  | .fn name code =>
    name.length < 4294967296 && (codeToBytes code).length < 4294967296 && wfC code
  | .call module function paramCount =>
    module.length < 4294967296 && function.length < 4294967296 && paramCount < 4294967296
  | .pushConstString value => value.length < 4294967296
  | .pushConstInteger value => decide (-2147483648 ≤ value) && decide (value < 2147483648)
  | .pushConstFloat value => value < 4294967296
  | .pushConstBoolean _ => true
  | .getLocal index => index < 4294967296
  | .setLocal index => index < 4294967296
  | .reserveLocal size => size < 4294967296
  | .allocate fields => fields < 4294967296
  | .getField index => index < 4294967296
  | .setField index => index < 4294967296
  | .pop => true
  | .dup => true
  | .add => true
  | .sub => true
  | .mul => true
  | .div => true
  | .inc => true
  | .dec => true
  | .eq => true
  | .ne => true
  | .lt => true
  | .le => true
  | .gt => true
  | .ge => true
  | .module name code =>
    name.length < 4294967296 && (codeToBytes code).length < 4294967296 && wfC code
  | .loadModule name code =>
    name.length < 4294967296 && (codeToBytes code).length < 4294967296 && wfC code
  | .getFunction name aliasName =>
    name.length < 4294967296 &&
      (match aliasName with
       | none => true
       | some a => a.length < 4294967296)
  | .ret => true
  | .then_ thenBlock elseBlock =>
    (codeToBytes thenBlock).length < 4294967296 &&
      (codeToBytes elseBlock).length < 4294967296 && wfC thenBlock && wfC elseBlock
  | .loop block => (codeToBytes block).length < 4294967296 && wfC block
  | .break_ => true
  | .continue_ => true

def wfC : Code → Bool
  | .nil => true
  | .cons i c => wfI i && wfC c
end

mutual
/-- The decode-side restriction under which the codec round-trips: the tree
contains no `Continue` (its opcode has no `from_u8` arm) and an aliased
`GetFunction` appears only as the last instruction of its sequence (its decode
arm stops the enclosing decode loop). -/
def rtOKI : Instruction → Bool
  | .continue_ => false
  | .fn _ code => rtOKC code
  | .module _ code => rtOKC code
  | .loadModule _ code => rtOKC code
  | .then_ thenBlock elseBlock => rtOKC thenBlock && rtOKC elseBlock
  | .loop block => rtOKC block
  | _ => true

def rtOKC : Code → Bool
  | .nil => true
  | .cons i .nil => rtOKI i
  | .cons i (.cons j c) => rtOKI i && !isAliasGF i && rtOKC (.cons j c)
end

/-- Does `code` start with a `Version` instruction whose triple equals the
host's? -/
def headVersionEq (host : Nat × Nat × Nat) : Code → Bool
  | .cons (.version major minor patch) _ =>
    major = host.1 && minor = host.2.1 && patch = host.2.2
  | _ => false

/-- All children are `Fn` declarations. -/
def allFn : Code → Bool
  | .nil => true
  | .cons (.fn _ _) rest => allFn rest
  | .cons _ _ => false

/-- All children are `GetFunction` declarations whose symbol resolves. -/
def allGetFn (symtab : Str → Option NativeFn) : Code → Bool
  | .nil => true
  | .cons (.getFunction name _) rest => (symtab name).isSome && allGetFn symtab rest
  | .cons _ _ => false

/-- Well-formed module declarations: each is a `Module` of `Fn` children or a
`LoadModule` whose library opens and whose `GetFunction` children all
resolve. -/
def wfDecls (libs : Str → Option (Str → Option NativeFn)) : Code → Bool
  | .nil => true
  | .cons d rest =>
    (match d with
     | .module _ c => allFn c
     | .loadModule name c =>
       match libs name with
       | some symtab => allGetFn symtab c
       | none => false
     | _ => false) && wfDecls libs rest

/-- Restriction on the bytes following an instruction inside one sequence: they
do not start with the `Else` or `Alias` tag the decoder probes for by
lookahead.  Encoder output always satisfies it (`headOK_toBytes`). -/
def headOK : List Nat → Bool
  | [] => true
  | b :: _ => !(ByteCode.fromU8 b == some .else_) && !(ByteCode.fromU8 b == some .aliasTag)

/-- A concrete `FloatOps` instance used by closed witnesses; no theorem depends
on its values. -/
def fo0 : FloatOps :=
  { fadd := fun _ _ => 0, fsub := fun _ _ => 0, fmul := fun _ _ => 0, fdiv := fun _ _ => 0,
    finc := fun _ => 0, fdec := fun _ => 0,
    feq := fun _ _ => false, fne := fun _ _ => false, flt := fun _ _ => false,
    fle := fun _ _ => false, fgt := fun _ _ => false, fge := fun _ _ => false }

/-- The freshly created VM state (`VirtualMachine::new`). -/
def vmEmpty : VMState :=
  { stack := [], modules := [], dymodules := [], localVars := [],
    callBreak := false, callContinue := false, callReturn := false, heap := [] }

theorem readU32_u32ToBe (v : Nat) (h : v < 4294967296) (rest : List Nat) :
    readU32 (u32ToBe v ++ rest) = some (v, rest) := by
  simp only [u32ToBe, List.cons_append, List.nil_append, readU32, Option.some.injEq,
    Prod.mk.injEq, and_true]
  omega

theorem readBytesN_exact (l rest : List Nat) :
    readBytesN l.length (l ++ rest) = some (l, rest) := by
  simp [readBytesN]

theorem readString_strBytes (s : Str) (h : s.length < 4294967296) (rest : List Nat) :
    readString (strBytes s ++ rest) = some (s, rest) := by
  unfold readString strBytes
  rw [List.append_assoc, readU32_u32ToBe s.length h]
  simp [readBytesN_exact]

theorem readI32_i32ToBe (z : Int) (h1 : -2147483648 ≤ z) (h2 : z < 2147483648)
    (rest : List Nat) :
    readI32 (i32ToBe z ++ rest) = some (z, rest) := by
  unfold readI32 i32ToBe
  have hlt : (z % 4294967296).toNat < 4294967296 := by omega
  rw [readU32_u32ToBe _ hlt]
  simp only [Option.some.injEq, Prod.mk.injEq, and_true]
  split <;> omega

theorem decodeGo_func (f : Nat) (bs : List Nat) :
    decodeGo (f + 1) (0x03 :: bs) =
      match readU32 bs with
      | none => .error "Expected function code length"
      | some (len, r1) =>
        match readString r1 with
        | none => .error "Expected function name"
        | some (name, r2) =>
          match readBytesN len r2 with
          | none => .error "Expected function code"
          | some (fnCode, r3) =>
            match decodeGo f fnCode with
            | .error e => .error e
            | .ok blk => Except.map (Code.cons (.fn name blk)) (decodeGo f r3) := rfl

theorem decodeGo_callOp (f : Nat) (bs : List Nat) :
    decodeGo (f + 1) (0x04 :: bs) =
      match readString bs with
      | none => .error "Expected module name"
      | some (module, r1) =>
        match readString r1 with
        | none => .error "Expected function name"
        | some (function, r2) =>
          match readU32 r2 with
          | none => .error "Expected parameter count"
          | some (paramCount, r3) =>
            Except.map (Code.cons (.call module function paramCount)) (decodeGo f r3) := rfl

theorem decodeGo_pcs (f : Nat) (bs : List Nat) :
    decodeGo (f + 1) (0x40 :: bs) =
      match readString bs with
      | none => .error "Expected string value"
      | some (value, r1) => Except.map (Code.cons (.pushConstString value)) (decodeGo f r1) := rfl

theorem decodeGo_pci (f : Nat) (bs : List Nat) :
    decodeGo (f + 1) (0x41 :: bs) =
      match readI32 bs with
      | none => .error "Expected integer value"
      | some (value, r1) => Except.map (Code.cons (.pushConstInteger value)) (decodeGo f r1) := rfl

theorem decodeGo_pcf (f : Nat) (bs : List Nat) :
    decodeGo (f + 1) (0x42 :: bs) =
      match readU32 bs with
      | none => .error "Expected float value"
      | some (value, r1) => Except.map (Code.cons (.pushConstFloat value)) (decodeGo f r1) := rfl

theorem decodeGo_getLocal (f : Nat) (bs : List Nat) :
    decodeGo (f + 1) (0x09 :: bs) =
      match readU32 bs with
      | none => .error "Expected local index"
      | some (index, r1) => Except.map (Code.cons (.getLocal index)) (decodeGo f r1) := rfl

theorem decodeGo_setLocal (f : Nat) (bs : List Nat) :
    decodeGo (f + 1) (0x0A :: bs) =
      match readU32 bs with
      | none => .error "Expected local index"
      | some (index, r1) => Except.map (Code.cons (.setLocal index)) (decodeGo f r1) := rfl

theorem decodeGo_reserveLocal (f : Nat) (bs : List Nat) :
    decodeGo (f + 1) (0x18 :: bs) =
      match readU32 bs with
      | none => .error "Expected local size"
      | some (size, r1) => Except.map (Code.cons (.reserveLocal size)) (decodeGo f r1) := rfl

theorem decodeGo_allocate (f : Nat) (bs : List Nat) :
    decodeGo (f + 1) (0x05 :: bs) =
      match readU32 bs with
      | none => .error "Expected number of fields"
      | some (fields, r1) => Except.map (Code.cons (.allocate fields)) (decodeGo f r1) := rfl

theorem decodeGo_getField (f : Nat) (bs : List Nat) :
    decodeGo (f + 1) (0x06 :: bs) =
      match readU32 bs with
      | none => .error "Expected field index"
      | some (index, r1) => Except.map (Code.cons (.getField index)) (decodeGo f r1) := rfl

theorem decodeGo_setField (f : Nat) (bs : List Nat) :
    decodeGo (f + 1) (0x07 :: bs) =
      match readU32 bs with
      | none => .error "Expected field index"
      | some (index, r1) => Except.map (Code.cons (.setField index)) (decodeGo f r1) := rfl

theorem decodeGo_moduleOp (f : Nat) (bs : List Nat) :
    decodeGo (f + 1) (0x1B :: bs) =
      match readU32 bs with
      | none => .error "Expected module code length"
      | some (len, r1) =>
        match readString r1 with
        | none => .error "Expected module name"
        | some (name, r2) =>
          match readBytesN len r2 with
          | none => .error "Expected module code"
          | some (moduleCode, r3) =>
            match decodeGo f moduleCode with
            | .error e => .error e
            | .ok blk => Except.map (Code.cons (.module name blk)) (decodeGo f r3) := rfl

theorem decodeGo_loadModuleOp (f : Nat) (bs : List Nat) :
    decodeGo (f + 1) (0x19 :: bs) =
      match readU32 bs with
      | none => .error "Expected module code length"
      | some (len, r1) =>
        match readString r1 with
        | none => .error "Expected module name"
        | some (name, r2) =>
          match readBytesN len r2 with
          | none => .error "Expected module code"
          | some (moduleCode, r3) =>
            match decodeGo f moduleCode with
            | .error e => .error e
            | .ok blk => Except.map (Code.cons (.loadModule name blk)) (decodeGo f r3) := rfl

theorem decodeGo_gf (f : Nat) (bs : List Nat) :
    decodeGo (f + 1) (0x1A :: bs) =
      match readString bs with
      | none => .error "Expected function name"
      | some (name, r1) =>
        match readByte r1 with
        | some (b2, r2) =>
          if ByteCode.fromU8 b2 = some .aliasTag then
            match readString r2 with
            | none => .error "Expected alias name"
            | some (aliasStr, _) => .ok (Code.cons (.getFunction name (some aliasStr)) .nil)
          else
            Except.map (Code.cons (.getFunction name none)) (decodeGo f r1)
        | none => Except.map (Code.cons (.getFunction name none)) (decodeGo f r1) := rfl

theorem decodeGo_thenOp (f : Nat) (bs : List Nat) :
    decodeGo (f + 1) (0xFD :: bs) =
      match readU32 bs with
      | none => .error "Expected block code length"
      | some (len, r1) =>
        match readBytesN len r1 with
        | none => .error "Expected block code"
        | some (blockBytes, r2) =>
          match decodeGo f blockBytes with
          | .error e => .error e
          | .ok thenBlock =>
            match readByte r2 with
            | some (b2, r3) =>
              if ByteCode.fromU8 b2 = some .else_ then
                match readU32 r3 with
                | none => .error "Expected block code length"
                | some (len2, r4) =>
                  match readBytesN len2 r4 with
                  | none => .error "Expected block code"
                  | some (elseBytes, r5) =>
                    match decodeGo f elseBytes with
                    | .error e => .error e
                    | .ok elseBlock =>
                      Except.map (Code.cons (.then_ thenBlock elseBlock)) (decodeGo f r5)
              else
                Except.map (Code.cons (.then_ thenBlock .nil)) (decodeGo f r2)
            | none => Except.map (Code.cons (.then_ thenBlock .nil)) (decodeGo f r2) := rfl

theorem decodeGo_loopOp (f : Nat) (bs : List Nat) :
    decodeGo (f + 1) (0xFB :: bs) =
      match readU32 bs with
      | none => .error "Expected block code length"
      | some (len, r1) =>
        match readBytesN len r1 with
        | none => .error "Expected block code"
        | some (blockBytes, r2) =>
          match decodeGo f blockBytes with
          | .error e => .error e
          | .ok block => Except.map (Code.cons (.loop block)) (decodeGo f r2) := rfl

theorem toBytes_length_pos : ∀ i : Instruction, 1 ≤ (toBytes i).length := by
  intro i
  cases i <;> simp [toBytes]

theorem headOK_toBytes (i : Instruction) (rest : List Nat) :
    headOK (toBytes i ++ rest) = true := by
  cases i <;> rfl

theorem isAliasGF_shape (i : Instruction) (h : isAliasGF i = true) :
    ∃ n a, i = .getFunction n (some a) := by
  unfold isAliasGF at h
  split at h
  · next n a => exact ⟨n, a, rfl⟩
  · exact absurd h (by simp)

theorem decodeGo_gfAlias (n a : Str) (hn : n.length < 4294967296)
    (ha : a.length < 4294967296) (f : Nat) (bs : List Nat) :
    decodeGo (f + 1) (toBytes (.getFunction n (some a)) ++ bs) =
      .ok (.cons (.getFunction n (some a)) .nil) := by
  have e1 : toBytes (.getFunction n (some a)) ++ bs =
      0x1A :: (strBytes n ++ (0x1E :: (strBytes a ++ bs))) := by
    simp [toBytes, ByteCode.toU8]
  rw [e1, decodeGo_gf, readString_strBytes n hn]
  simp only [readByte]
  rw [if_pos (show ByteCode.fromU8 0x1E = some .aliasTag from rfl), readString_strBytes a ha]

mutual
theorem decodeGo_toBytes : ∀ (i : Instruction), wfI i = true → rtOKI i = true →
    isAliasGF i = false → ∀ (f : Nat) (rest : List Nat),
    (toBytes i).length + rest.length ≤ f → headOK rest = true →
    decodeGo (f + 1) (toBytes i ++ rest) = Except.map (Code.cons i) (decodeGo f rest)
  | .none_, _, _, _, _, _, _, _ => rfl
  | .version _ _ _, _, _, _, _, _, _, _ => rfl
  | .dump, _, _, _, _, _, _, _ => rfl
  | .hi, _, _, _, _, _, _, _ => rfl
  | .fn name code, hwf, hrt, _, f, rest, hf, _ => by
    simp only [wfI, Bool.and_eq_true, decide_eq_true_eq] at hwf
    obtain ⟨⟨hn, hL⟩, hc⟩ := hwf
    simp only [rtOKI] at hrt
    have e1 : toBytes (.fn name code) ++ rest =
        0x03 :: (u32ToBe (codeToBytes code).length ++
          (strBytes name ++ (codeToBytes code ++ rest))) := by
      simp [toBytes, ByteCode.toU8]
    have hflt : (codeToBytes code).length < f := by
      simp only [toBytes, strBytes, u32ToBe, List.length_cons, List.length_append,
        List.length_nil] at hf
      omega
    rw [e1]
    simp only [decodeGo_func, readU32_u32ToBe _ hL, readString_strBytes name hn,
      readBytesN_exact, decodeGo_codeToBytes code hc hrt f hflt]
  | .call m fc pc, hwf, _, _, f, rest, _, _ => by
    simp only [wfI, Bool.and_eq_true, decide_eq_true_eq] at hwf
    obtain ⟨⟨hm, hfc⟩, hpc⟩ := hwf
    have e1 : toBytes (.call m fc pc) ++ rest =
        0x04 :: (strBytes m ++ (strBytes fc ++ (u32ToBe pc ++ rest))) := by
      simp [toBytes, ByteCode.toU8]
    rw [e1]
    simp only [decodeGo_callOp, readString_strBytes m hm, readString_strBytes fc hfc,
      readU32_u32ToBe pc hpc]
  | .pushConstString v, hwf, _, _, f, rest, _, _ => by
    simp only [wfI, decide_eq_true_eq] at hwf
    have e1 : toBytes (.pushConstString v) ++ rest = 0x40 :: (strBytes v ++ rest) := by
      simp [toBytes, ByteCode.toU8]
    rw [e1]
    simp only [decodeGo_pcs, readString_strBytes v hwf]
  | .pushConstInteger v, hwf, _, _, f, rest, _, _ => by
    simp only [wfI, Bool.and_eq_true, decide_eq_true_eq] at hwf
    obtain ⟨h1, h2⟩ := hwf
    have e1 : toBytes (.pushConstInteger v) ++ rest = 0x41 :: (i32ToBe v ++ rest) := by
      simp [toBytes, ByteCode.toU8]
    rw [e1]
    simp only [decodeGo_pci, readI32_i32ToBe v h1 h2]
  | .pushConstFloat v, hwf, _, _, f, rest, _, _ => by
    simp only [wfI, decide_eq_true_eq] at hwf
    have e1 : toBytes (.pushConstFloat v) ++ rest = 0x42 :: (u32ToBe v ++ rest) := by
      simp [toBytes, ByteCode.toU8]
    rw [e1]
    simp only [decodeGo_pcf, readU32_u32ToBe v hwf]
  | .pushConstBoolean v, _, _, _, _, _, _, _ => by cases v <;> rfl
  | .getLocal index, hwf, _, _, f, rest, _, _ => by
    simp only [wfI, decide_eq_true_eq] at hwf
    have e1 : toBytes (.getLocal index) ++ rest = 0x09 :: (u32ToBe index ++ rest) := by
      simp [toBytes, ByteCode.toU8]
    rw [e1]
    simp only [decodeGo_getLocal, readU32_u32ToBe index hwf]
  | .setLocal index, hwf, _, _, f, rest, _, _ => by
    simp only [wfI, decide_eq_true_eq] at hwf
    have e1 : toBytes (.setLocal index) ++ rest = 0x0A :: (u32ToBe index ++ rest) := by
      simp [toBytes, ByteCode.toU8]
    rw [e1]
    simp only [decodeGo_setLocal, readU32_u32ToBe index hwf]
  | .reserveLocal size, hwf, _, _, f, rest, _, _ => by
    simp only [wfI, decide_eq_true_eq] at hwf
    have e1 : toBytes (.reserveLocal size) ++ rest = 0x18 :: (u32ToBe size ++ rest) := by
      simp [toBytes, ByteCode.toU8]
    rw [e1]
    simp only [decodeGo_reserveLocal, readU32_u32ToBe size hwf]
  | .allocate fields, hwf, _, _, f, rest, _, _ => by
    simp only [wfI, decide_eq_true_eq] at hwf
    have e1 : toBytes (.allocate fields) ++ rest = 0x05 :: (u32ToBe fields ++ rest) := by
      simp [toBytes, ByteCode.toU8]
    rw [e1]
    simp only [decodeGo_allocate, readU32_u32ToBe fields hwf]
  | .getField index, hwf, _, _, f, rest, _, _ => by
    simp only [wfI, decide_eq_true_eq] at hwf
    have e1 : toBytes (.getField index) ++ rest = 0x06 :: (u32ToBe index ++ rest) := by
      simp [toBytes, ByteCode.toU8]
    rw [e1]
    simp only [decodeGo_getField, readU32_u32ToBe index hwf]
  | .setField index, hwf, _, _, f, rest, _, _ => by
    simp only [wfI, decide_eq_true_eq] at hwf
    have e1 : toBytes (.setField index) ++ rest = 0x07 :: (u32ToBe index ++ rest) := by
      simp [toBytes, ByteCode.toU8]
    rw [e1]
    simp only [decodeGo_setField, readU32_u32ToBe index hwf]
  | .pop, _, _, _, _, _, _, _ => rfl
  | .dup, _, _, _, _, _, _, _ => rfl
  | .add, _, _, _, _, _, _, _ => rfl
  | .sub, _, _, _, _, _, _, _ => rfl
  | .mul, _, _, _, _, _, _, _ => rfl
  | .div, _, _, _, _, _, _, _ => rfl
  | .inc, _, _, _, _, _, _, _ => rfl
  | .dec, _, _, _, _, _, _, _ => rfl
  | .eq, _, _, _, _, _, _, _ => rfl
  | .ne, _, _, _, _, _, _, _ => rfl
  | .lt, _, _, _, _, _, _, _ => rfl
  | .le, _, _, _, _, _, _, _ => rfl
  | .gt, _, _, _, _, _, _, _ => rfl
  | .ge, _, _, _, _, _, _, _ => rfl
  | .module name code, hwf, hrt, _, f, rest, hf, _ => by
    simp only [wfI, Bool.and_eq_true, decide_eq_true_eq] at hwf
    obtain ⟨⟨hn, hL⟩, hc⟩ := hwf
    simp only [rtOKI] at hrt
    have e1 : toBytes (.module name code) ++ rest =
        0x1B :: (u32ToBe (codeToBytes code).length ++
          (strBytes name ++ (codeToBytes code ++ rest))) := by
      simp [toBytes, ByteCode.toU8]
    have hflt : (codeToBytes code).length < f := by
      simp only [toBytes, strBytes, u32ToBe, List.length_cons, List.length_append,
        List.length_nil] at hf
      omega
    rw [e1]
    simp only [decodeGo_moduleOp, readU32_u32ToBe _ hL, readString_strBytes name hn,
      readBytesN_exact, decodeGo_codeToBytes code hc hrt f hflt]
  | .loadModule name code, hwf, hrt, _, f, rest, hf, _ => by
    simp only [wfI, Bool.and_eq_true, decide_eq_true_eq] at hwf
    obtain ⟨⟨hn, hL⟩, hc⟩ := hwf
    simp only [rtOKI] at hrt
    have e1 : toBytes (.loadModule name code) ++ rest =
        0x19 :: (u32ToBe (codeToBytes code).length ++
          (strBytes name ++ (codeToBytes code ++ rest))) := by
      simp [toBytes, ByteCode.toU8]
    have hflt : (codeToBytes code).length < f := by
      simp only [toBytes, strBytes, u32ToBe, List.length_cons, List.length_append,
        List.length_nil] at hf
      omega
    rw [e1]
    simp only [decodeGo_loadModuleOp, readU32_u32ToBe _ hL, readString_strBytes name hn,
      readBytesN_exact, decodeGo_codeToBytes code hc hrt f hflt]
  | .getFunction name none, hwf, _, _, f, rest, _, hh => by
    simp only [wfI, Bool.and_true, decide_eq_true_eq] at hwf
    have e1 : toBytes (.getFunction name none) ++ rest = 0x1A :: (strBytes name ++ rest) := by
      simp [toBytes, ByteCode.toU8]
    rw [e1]
    simp only [decodeGo_gf, readString_strBytes name hwf]
    cases rest with
    | nil => rfl
    | cons b l =>
      simp only [headOK, Bool.and_eq_true, Bool.not_eq_true', beq_eq_false_iff_ne,
        ne_eq] at hh
      simp only [readByte, if_neg hh.2]
  | .getFunction name (some a), _, _, hna, _, _, _, _ => by
    simp [isAliasGF] at hna
  | .ret, _, _, _, _, _, _, _ => rfl
  | .then_ tb eb, hwf, hrt, _, f, rest, hf, hh => by
    simp only [wfI, Bool.and_eq_true, decide_eq_true_eq] at hwf
    obtain ⟨⟨⟨hLt, hLe⟩, hwt⟩, hwe⟩ := hwf
    simp only [rtOKI, Bool.and_eq_true] at hrt
    obtain ⟨hrtT, hrtE⟩ := hrt
    cases eb with
    | nil =>
      have e1 : toBytes (.then_ tb .nil) ++ rest =
          0xFD :: (u32ToBe (codeToBytes tb).length ++ (codeToBytes tb ++ rest)) := by
        simp [toBytes, ByteCode.toU8]
      have hflt : (codeToBytes tb).length < f := by
        simp only [toBytes, strBytes, u32ToBe, List.length_cons, List.length_append,
          List.length_nil] at hf
        omega
      rw [e1]
      simp only [decodeGo_thenOp, readU32_u32ToBe _ hLt, readBytesN_exact,
        decodeGo_codeToBytes tb hwt hrtT f hflt]
      cases rest with
      | nil => rfl
      | cons b l =>
        simp only [headOK, Bool.and_eq_true, Bool.not_eq_true', beq_eq_false_iff_ne,
          ne_eq] at hh
        simp only [readByte, if_neg hh.1]
    | cons j e2 =>
      have e1 : toBytes (.then_ tb (.cons j e2)) ++ rest =
          0xFD :: (u32ToBe (codeToBytes tb).length ++ (codeToBytes tb ++
            (0xFC :: (u32ToBe (codeToBytes (.cons j e2)).length ++
              (codeToBytes (.cons j e2) ++ rest))))) := by
        simp [toBytes, ByteCode.toU8]
      have hflt : (codeToBytes tb).length < f ∧ (codeToBytes (.cons j e2)).length < f := by
        have hlen := congrArg List.length e1
        simp only [List.length_append, List.length_cons, List.length_nil, strBytes,
          u32ToBe] at hlen
        omega
      rw [e1]
      simp only [decodeGo_thenOp, readU32_u32ToBe _ hLt, readU32_u32ToBe _ hLe,
        readBytesN_exact, decodeGo_codeToBytes tb hwt hrtT f hflt.1, readByte,
        if_pos (show ByteCode.fromU8 0xFC = some ByteCode.else_ from rfl),
        decodeGo_codeToBytes (.cons j e2) hwe hrtE f hflt.2]
  | .loop block, hwf, hrt, _, f, rest, hf, _ => by
    simp only [wfI, Bool.and_eq_true, decide_eq_true_eq] at hwf
    obtain ⟨hL, hc⟩ := hwf
    simp only [rtOKI] at hrt
    have e1 : toBytes (.loop block) ++ rest =
        0xFB :: (u32ToBe (codeToBytes block).length ++ (codeToBytes block ++ rest)) := by
      simp [toBytes, ByteCode.toU8]
    have hflt : (codeToBytes block).length < f := by
      simp only [toBytes, strBytes, u32ToBe, List.length_cons, List.length_append,
        List.length_nil] at hf
      omega
    rw [e1]
    simp only [decodeGo_loopOp, readU32_u32ToBe _ hL, readBytesN_exact,
      decodeGo_codeToBytes block hc hrt f hflt]
  | .break_, _, _, _, _, _, _, _ => rfl
  | .continue_, _, hrt, _, _, _, _, _ => by simp [rtOKI] at hrt

theorem decodeGo_codeToBytes : ∀ (c : Code), wfC c = true → rtOKC c = true →
    ∀ (f : Nat), (codeToBytes c).length < f → decodeGo f (codeToBytes c) = .ok c
  | .nil, _, _, f, _ => by cases f <;> rfl
  | .cons i c', hwf, hrt, f, hf => by
    simp only [wfC, Bool.and_eq_true] at hwf
    obtain ⟨hwi, hwc⟩ := hwf
    obtain ⟨g, rfl⟩ : ∃ g, f = g + 1 := ⟨f - 1, by omega⟩
    by_cases hA : isAliasGF i = true
    · obtain ⟨n, a, rfl⟩ := isAliasGF_shape i hA
      cases c' with
      | nil =>
        simp only [wfI, Bool.and_eq_true, decide_eq_true_eq] at hwi
        exact decodeGo_gfAlias n a hwi.1 hwi.2 g []
      | cons j c2 =>
        simp [rtOKC, isAliasGF] at hrt
    · have hna : isAliasGF i = false := by
        revert hA
        cases isAliasGF i <;> simp
      have hri : rtOKI i = true ∧ rtOKC c' = true := by
        cases c' <;> simp_all [rtOKC]
      have hf' : (toBytes i).length + (codeToBytes c').length ≤ g := by
        have h2 := hf
        simp only [codeToBytes, List.length_append] at h2
        omega
      have hhead : headOK (codeToBytes c') = true := by
        cases c' with
        | nil => rfl
        | cons j c2 => exact headOK_toBytes j (codeToBytes c2)
      have h3 : (codeToBytes c').length < g := by
        have h4 := toBytes_length_pos i
        omega
      show decodeGo (g + 1) (toBytes i ++ codeToBytes c') = .ok (.cons i c')
      rw [decodeGo_toBytes i hwi hri.1 hna g (codeToBytes c') hf' hhead,
        decodeGo_codeToBytes c' hwc hri.2 g h3]
      rfl
end

theorem tail_eq_drop_one {α : Type} : ∀ l : List α, l.tail = l.drop 1 := by
  intro l
  cases l <;> rfl

theorem exec_frames (fo : FloatOps) :
    ∀ (f : Nat) (c : Code) (s s' : VMState), exec fo f c s = .ok s' →
      s'.localVars.drop 1 = s.localVars.drop 1 := by
  intro f
  induction f with
  | zero =>
    intro c s s' h
    exact absurd h (by simp [exec])
  | succ g ih =>
    intro c s s' h
    cases c with
    | nil =>
      simp only [exec, Res.ok.injEq] at h
      rw [← h]
    | cons i rest =>
      cases i <;> simp only [exec] at h
      case none_ => exact ih _ _ _ h
      case version major minor patch => exact ih _ _ _ h
      case dump => exact ih _ _ _ h
      case hi => exact ih _ _ _ h
      case fn name code => exact Res.noConfusion h
      case call m fnName n =>
        split at h
        · split at h
          · split at h
            · split at h
              · next s2 heq =>
                have h2 := ih _ _ _ heq
                have h3 := ih _ _ _ h
                simp only [clearFlags] at h2 h3
                have h2' : List.drop 1 s2.localVars = s.localVars := by
                  simpa using h2
                rw [h3, tail_eq_drop_one, h2']
              · exact Res.noConfusion h
              · exact Res.noConfusion h
            · split at h
              · simpa using ih _ _ _ h
              · simpa using ih _ _ _ h
            · exact Res.noConfusion h
          · split at h
            · split at h
              · split at h
                · simpa using ih _ _ _ h
                · simpa using ih _ _ _ h
              · exact Res.noConfusion h
            · exact Res.noConfusion h
        · exact Res.noConfusion h
      case pushConstString v => simpa using ih _ _ _ h
      case pushConstInteger v => simpa using ih _ _ _ h
      case pushConstFloat v => simpa using ih _ _ _ h
      case pushConstBoolean v => simpa using ih _ _ _ h
      case getLocal index =>
        repeat' split at h
        all_goals first
          | exact Res.noConfusion h
          | simpa using ih _ _ _ h
      case setLocal index =>
        rcases hst : s.stack with _ | ⟨v, st⟩ <;>
          rcases hlv : s.localVars with _ | ⟨locals, lrest⟩ <;>
          simp only [hst, hlv] at h
        · exact Res.noConfusion h
        · exact Res.noConfusion h
        · exact Res.noConfusion h
        · split at h
          · simpa using ih _ _ _ h
          · exact Res.noConfusion h
      case reserveLocal size =>
        rcases hlv : s.localVars with _ | ⟨locals, lrest⟩ <;> simp only [hlv] at h
        · exact Res.noConfusion h
        · simpa using ih _ _ _ h
      case allocate fields => simpa using ih _ _ _ h
      case getField index =>
        repeat' split at h
        all_goals first
          | exact Res.noConfusion h
          | simpa using ih _ _ _ h
      case setField index =>
        repeat' split at h
        all_goals first
          | exact Res.noConfusion h
          | simpa using ih _ _ _ h
      case pop => simpa using ih _ _ _ h
      case dup =>
        repeat' split at h
        all_goals first
          | exact Res.noConfusion h
          | simpa using ih _ _ _ h
      case add =>
        repeat' split at h
        all_goals first
          | exact Res.noConfusion h
          | simpa using ih _ _ _ h
      case sub =>
        repeat' split at h
        all_goals first
          | exact Res.noConfusion h
          | simpa using ih _ _ _ h
      case mul =>
        repeat' split at h
        all_goals first
          | exact Res.noConfusion h
          | simpa using ih _ _ _ h
      case div =>
        repeat' split at h
        all_goals first
          | exact Res.noConfusion h
          | simpa using ih _ _ _ h
      case inc =>
        repeat' split at h
        all_goals first
          | exact Res.noConfusion h
          | simpa using ih _ _ _ h
      case dec =>
        repeat' split at h
        all_goals first
          | exact Res.noConfusion h
          | simpa using ih _ _ _ h
      case eq =>
        repeat' split at h
        all_goals first
          | exact Res.noConfusion h
          | simpa using ih _ _ _ h
      case ne =>
        repeat' split at h
        all_goals first
          | exact Res.noConfusion h
          | simpa using ih _ _ _ h
      case lt =>
        repeat' split at h
        all_goals first
          | exact Res.noConfusion h
          | simpa using ih _ _ _ h
      case le =>
        repeat' split at h
        all_goals first
          | exact Res.noConfusion h
          | simpa using ih _ _ _ h
      case gt =>
        repeat' split at h
        all_goals first
          | exact Res.noConfusion h
          | simpa using ih _ _ _ h
      case ge =>
        repeat' split at h
        all_goals first
          | exact Res.noConfusion h
          | simpa using ih _ _ _ h
      case module name code => exact Res.noConfusion h
      case loadModule name code => exact Res.noConfusion h
      case getFunction name aliasName => exact Res.noConfusion h
      case ret =>
        simp only [Res.ok.injEq] at h
        rw [← h]
      case then_ tb eb =>
        rcases hst : s.stack with _ | ⟨v, st⟩ <;> simp only [hst] at h
        · exact Res.noConfusion h
        · cases v <;> try exact Res.noConfusion h
          next bv =>
            dsimp only at h
            split at h
            · next s2 heq =>
              split at h
              · simp only [Res.ok.injEq] at h
                rw [← h]
                rcases hbv : bv <;> simp only [hbv, reduceIte] at heq <;>
                  simpa using ih _ _ _ heq
              · rw [ih _ _ _ h]
                rcases hbv : bv <;> simp only [hbv, reduceIte] at heq <;>
                  simpa using ih _ _ _ heq
            · exact Res.noConfusion h
            · exact Res.noConfusion h
      case loop block =>
        split at h
        · next s2 heq =>
          split at h
          · rw [ih _ _ _ h]
            simpa using ih _ _ _ heq
          · split at h
            · rw [ih _ _ _ h]
              simpa using ih _ _ _ heq
            · split at h
              · simp only [Res.ok.injEq] at h
                rw [← h]
                simpa using ih _ _ _ heq
              · rw [ih _ _ _ h]
                simpa using ih _ _ _ heq
        · exact Res.noConfusion h
        · exact Res.noConfusion h
      case break_ =>
        simp only [Res.ok.injEq] at h
        rw [← h]
      case continue_ =>
        simp only [Res.ok.injEq] at h
        rw [← h]

/-- C1 (counterexample): the round trip `decode (encode code) = code` fails as
stated.  Encoding `Continue` writes `0xF9`, which `ByteCode::from_u8` does not
accept, so decoding errors out; and every instruction encoded after an aliased
`GetFunction` (here, the parse of `(fn.get "f" as "g")(pop)`) is dropped by the
decoder, so the decoded tree is not the original one. -/
theorem roundtrip_counterexample :
    fromBytecode (codeToBytes (.cons .continue_ .nil)) = .error "Invalid instruction: 249" ∧
    fromBytecode (codeToBytes (.cons (.getFunction [102] (some [103])) (.cons .pop .nil))) =
      .ok (.cons (.getFunction [102] (some [103])) .nil) ∧
    Code.cons (.getFunction [102] (some [103])) .nil ≠
      Code.cons (.getFunction [102] (some [103])) (.cons .pop .nil) :=
  ⟨rfl, rfl, by simp⟩

/-- C1 (amended): decoding the encoding of an instruction tree yields the tree
back, provided the tree contains no `Continue` instruction and every aliased
`GetFunction` is the last instruction of its enclosing sequence (`rtOKC`), and
its operands fit their wire types (`wfC`). -/
theorem roundtrip_amended (c : Code) (hwf : wfC c = true) (hrt : rtOKC c = true) :
    fromBytecode (codeToBytes c) = .ok c :=
  decodeGo_codeToBytes c hwf hrt _ (Nat.lt_succ_self _)

theorem roundtrip_amended_witness :
    wfC (.cons (.version 0 1 0) (.cons (.fn [102] (.cons (.pushConstInteger (-7))
      (.cons (.then_ (.cons .ret .nil) (.cons .break_ .nil))
        (.cons (.loop (.cons .dup .nil)) .nil))))
      (.cons (.getFunction [103] (some [104])) .nil))) = true ∧
    rtOKC (.cons (.version 0 1 0) (.cons (.fn [102] (.cons (.pushConstInteger (-7))
      (.cons (.then_ (.cons .ret .nil) (.cons .break_ .nil))
        (.cons (.loop (.cons .dup .nil)) .nil))))
      (.cons (.getFunction [103] (some [104])) .nil))) = true ∧
    fromBytecode (codeToBytes (.cons (.version 0 1 0) (.cons (.fn [102]
      (.cons (.pushConstInteger (-7))
        (.cons (.then_ (.cons .ret .nil) (.cons .break_ .nil))
          (.cons (.loop (.cons .dup .nil)) .nil))))
      (.cons (.getFunction [103] (some [104])) .nil)))) =
      .ok (.cons (.version 0 1 0) (.cons (.fn [102] (.cons (.pushConstInteger (-7))
        (.cons (.then_ (.cons .ret .nil) (.cons .break_ .nil))
          (.cons (.loop (.cons .dup .nil)) .nil))))
        (.cons (.getFunction [103] (some [104])) .nil))) :=
  ⟨by decide, by decide, roundtrip_amended _ (by decide) (by decide)⟩

/-- C10: when the decoder reads a `GetFunction` carrying an alias tag it stops
consuming the byte stream immediately after it — whatever bytes follow are
absent from the decoded `Code` — while a `GetFunction` without an alias lets
the decode loop continue over the rest of the stream. -/
theorem getFunction_alias_stops (n a : Str) (hn : n.length < 4294967296)
    (ha : a.length < 4294967296) (f : Nat) (rest : List Nat) (hh : headOK rest = true)
    (hf : (toBytes (.getFunction n none)).length + rest.length ≤ f) :
    fromBytecode (toBytes (.getFunction n (some a)) ++ rest) =
      .ok (.cons (.getFunction n (some a)) .nil) ∧
    decodeGo (f + 1) (toBytes (.getFunction n none) ++ rest) =
      Except.map (Code.cons (.getFunction n none)) (decodeGo f rest) := by
  constructor
  · exact decodeGo_gfAlias n a hn ha _ rest
  · exact decodeGo_toBytes (.getFunction n none)
      (by simp only [wfI, Bool.and_true, decide_eq_true_eq]; exact hn) rfl rfl f rest hf hh

theorem getFunction_alias_stops_witness :
    fromBytecode (toBytes (.getFunction [110] (some [97])) ++ [0x0B]) =
      .ok (.cons (.getFunction [110] (some [97])) .nil) ∧
    decodeGo (20 + 1) (toBytes (.getFunction [110] none) ++ [0x0B]) =
      Except.map (Code.cons (.getFunction [110] none)) (decodeGo 20 [0x0B]) :=
  getFunction_alias_stops [110] [97] (by decide) (by decide) 20 [0x0B] (by decide) (by decide)

/-- C9: the implemented `PartialEq` on `Instruction` compares only the variant
(it coincides with equality of the `Hash` discriminants and ignores all
operands), so it is strictly coarser than structural equality: for example
`PushConstInteger 1 == PushConstInteger 2` and any two `Fn` instructions are
equal. -/
theorem instrEq_variant_only :
    (∀ a b : Instruction, instrEq a b = (tag a == tag b)) ∧
    instrEq (.pushConstInteger 1) (.pushConstInteger 2) = true ∧
    (∀ n1 c1 n2 c2, instrEq (.fn n1 c1) (.fn n2 c2) = true) ∧
    (∃ a b : Instruction, instrEq a b = true ∧ a ≠ b) := by
  refine ⟨?_, rfl, fun _ _ _ _ => rfl,
    ⟨.pushConstInteger 1, .pushConstInteger 2, rfl, by simp⟩⟩
  intro a b
  cases a <;> cases b <;> rfl

/-- C2 (counterexample): after `i32.const 3; i32.const 10`, `cmp.lt` pushes
`Boolean(10 < 3) = Boolean(false)` — the top of the stack is compared against
the second element, not `Boolean(3 < 10)` as the claim states. -/
theorem sub_cmp_counterexample :
    exec fo0 4 (.cons (.pushConstInteger 3) (.cons (.pushConstInteger 10) (.cons .lt .nil)))
      vmEmpty = .ok { vmEmpty with stack := [.boolean false] } ∧
    Value.boolean false ≠ Value.boolean true :=
  ⟨rfl, by simp⟩

/-- C2 (amended): `push x; push y; op.sub` leaves `Integer(x - y)` (whenever
the difference is representable in `i32`; in general the wrapped value), but
the comparisons evaluate first-popped OP second-popped: `cmp.lt` leaves
`Boolean(y < x)`, `cmp.le` `Boolean(y ≤ x)`, `cmp.gt` `Boolean(x < y)` and
`cmp.ge` `Boolean(x ≤ y)` — not `Boolean(x OP y)`. -/
theorem sub_cmp_amended (fo : FloatOps) (f : Nat) (x y : Int) (s : VMState)
    (h1 : -2147483648 ≤ x - y) (h2 : x - y < 2147483648) :
    exec fo (f + 4)
      (.cons (.pushConstInteger x) (.cons (.pushConstInteger y) (.cons .sub .nil))) s =
      .ok { s with stack := .integer (x - y) :: s.stack } ∧
    exec fo (f + 4)
      (.cons (.pushConstInteger x) (.cons (.pushConstInteger y) (.cons .lt .nil))) s =
      .ok { s with stack := .boolean (decide (y < x)) :: s.stack } ∧
    exec fo (f + 4)
      (.cons (.pushConstInteger x) (.cons (.pushConstInteger y) (.cons .le .nil))) s =
      .ok { s with stack := .boolean (decide (y ≤ x)) :: s.stack } ∧
    exec fo (f + 4)
      (.cons (.pushConstInteger x) (.cons (.pushConstInteger y) (.cons .gt .nil))) s =
      .ok { s with stack := .boolean (decide (x < y)) :: s.stack } ∧
    exec fo (f + 4)
      (.cons (.pushConstInteger x) (.cons (.pushConstInteger y) (.cons .ge .nil))) s =
      .ok { s with stack := .boolean (decide (x ≤ y)) :: s.stack } := by
  refine ⟨?_, rfl, rfl, rfl, rfl⟩
  have hw : wrap32 (x - y) = x - y := by
    unfold wrap32
    omega
  rw [← hw]
  rfl

theorem sub_cmp_amended_witness :
    -2147483648 ≤ (10 : Int) - 3 ∧ (10 : Int) - 3 < 2147483648 ∧
    (exec fo0 (0 + 4) (.cons (.pushConstInteger 10) (.cons (.pushConstInteger 3)
        (.cons .sub .nil))) vmEmpty =
      .ok { vmEmpty with stack := .integer (10 - 3) :: vmEmpty.stack } ∧
    exec fo0 (0 + 4) (.cons (.pushConstInteger 10) (.cons (.pushConstInteger 3)
        (.cons .lt .nil))) vmEmpty =
      .ok { vmEmpty with stack := .boolean (decide ((3 : Int) < 10)) :: vmEmpty.stack } ∧
    exec fo0 (0 + 4) (.cons (.pushConstInteger 10) (.cons (.pushConstInteger 3)
        (.cons .le .nil))) vmEmpty =
      .ok { vmEmpty with stack := .boolean (decide ((3 : Int) ≤ 10)) :: vmEmpty.stack } ∧
    exec fo0 (0 + 4) (.cons (.pushConstInteger 10) (.cons (.pushConstInteger 3)
        (.cons .gt .nil))) vmEmpty =
      .ok { vmEmpty with stack := .boolean (decide ((10 : Int) < 3)) :: vmEmpty.stack } ∧
    exec fo0 (0 + 4) (.cons (.pushConstInteger 10) (.cons (.pushConstInteger 3)
        (.cons .ge .nil))) vmEmpty =
      .ok { vmEmpty with stack := .boolean (decide ((10 : Int) ≤ 3)) :: vmEmpty.stack }) :=
  ⟨by decide, by decide, sub_cmp_amended fo0 0 10 3 vmEmpty (by decide) (by decide)⟩

/-- C3 (counterexample): `(str.const "foo")(str.const "bar")(op.add)` leaves
`String("barfoo")` on the stack (`[98,97,114,102,111,111]` as UTF-8 bytes),
not `String("foobar")`. -/
theorem string_add_counterexample :
    exec fo0 4 (.cons (.pushConstString [102, 111, 111])
      (.cons (.pushConstString [98, 97, 114]) (.cons .add .nil))) vmEmpty =
      .ok { vmEmpty with stack := [.string [98, 97, 114, 102, 111, 111]] } ∧
    Value.string [98, 97, 114, 102, 111, 111] ≠ Value.string [102, 111, 111, 98, 97, 114] :=
  ⟨rfl, by simp⟩

/-- C3 (amended): string `Add` after `push a; push b` concatenates the
later-pushed string followed by the earlier-pushed one, leaving
`String(b ++ a)`; in particular `"foo"` then `"bar"` gives `"barfoo"`. -/
theorem string_add_amended (fo : FloatOps) (f : Nat) (a b : Str) (s : VMState) :
    exec fo (f + 4)
      (.cons (.pushConstString a) (.cons (.pushConstString b) (.cons .add .nil))) s =
      .ok { s with stack := .string (b ++ a) :: s.stack } := rfl

/-- C7 (counterexample): a loop whose body breaks leaves `call_break` set —
after `(loop (break))` the enclosing sequence resumes (here pushing
`Integer 1`) with `callBreak = true`, not `false` as the claim states. -/
theorem loop_break_counterexample :
    exec fo0 4 (.cons (.loop (.cons .break_ .nil)) (.cons (.pushConstInteger 1) .nil))
      vmEmpty = .ok { vmEmpty with stack := [.integer 1], callBreak := true } ∧
    ({ vmEmpty with stack := [.integer 1], callBreak := true } : VMState).callBreak = true :=
  ⟨rfl, rfl⟩

/-- C7 (amended): when a loop body iteration completes with the break flag set,
the `Loop` instruction terminates and the enclosing sequence resumes with the
state exactly as the body left it — `call_break` still `true`; the flag is only
reset by the next `execute` entry or by a `Call`. -/
theorem loop_break_keeps_flag (fo : FloatOps) (f : Nat) (block rest : Code) (s s2 : VMState)
    (hrun : exec fo f block (clearFlags s) = .ok s2) (hbrk : s2.callBreak = true) :
    exec fo (f + 1) (.cons (.loop block) rest) s = exec fo f rest s2 := by
  simp only [exec, hrun, hbrk, reduceIte]

theorem loop_break_keeps_flag_witness :
    exec fo0 3 (.cons .break_ .nil) (clearFlags vmEmpty) =
      .ok { vmEmpty with callBreak := true } ∧
    ({ vmEmpty with callBreak := true } : VMState).callBreak = true ∧
    exec fo0 (3 + 1) (.cons (.loop (.cons .break_ .nil)) (.cons (.pushConstInteger 1) .nil))
      vmEmpty =
      exec fo0 3 (.cons (.pushConstInteger 1) .nil) { vmEmpty with callBreak := true } :=
  ⟨rfl, rfl, loop_break_keeps_flag fo0 3 (.cons .break_ .nil)
    (.cons (.pushConstInteger 1) .nil) vmEmpty { vmEmpty with callBreak := true } rfl rfl⟩

/-- C8 (counterexample): `pop` on an empty stack is not a runtime error —
`Vec::pop`'s `None` is ignored, so execution completes normally with the state
unchanged. -/
theorem pop_empty_counterexample :
    exec fo0 2 (.cons .pop .nil) vmEmpty = .ok vmEmpty ∧
    (Res.ok vmEmpty).isErr = false :=
  ⟨rfl, rfl⟩

/-- C8 (amended): every operand-consuming instruction except `Pop` is a fatal
runtime error when the stack holds fewer values than it consumes — one-operand
instructions on an empty stack, two-operand instructions also on a one-value
stack, and `Call` popping more arguments than are present — while `Pop` on an
empty stack silently does nothing and execution continues normally. -/
theorem underflow_amended (fo : FloatOps) (f : Nat) (s : VMState) (v : Value) (i : Nat)
    (hs : s.stack = []) :
    exec fo (f + 2) (.cons .pop .nil) s = .ok s ∧
    (exec fo (f + 1) (.cons .dup .nil) s).isErr = true ∧
    (exec fo (f + 1) (.cons .add .nil) s).isErr = true ∧
    (exec fo (f + 1) (.cons .sub .nil) s).isErr = true ∧
    (exec fo (f + 1) (.cons .mul .nil) s).isErr = true ∧
    (exec fo (f + 1) (.cons .div .nil) s).isErr = true ∧
    (exec fo (f + 1) (.cons .inc .nil) s).isErr = true ∧
    (exec fo (f + 1) (.cons .dec .nil) s).isErr = true ∧
    (exec fo (f + 1) (.cons .eq .nil) s).isErr = true ∧
    (exec fo (f + 1) (.cons .ne .nil) s).isErr = true ∧
    (exec fo (f + 1) (.cons .lt .nil) s).isErr = true ∧
    (exec fo (f + 1) (.cons .le .nil) s).isErr = true ∧
    (exec fo (f + 1) (.cons .gt .nil) s).isErr = true ∧
    (exec fo (f + 1) (.cons .ge .nil) s).isErr = true ∧
    (exec fo (f + 1) (.cons (.setLocal i) .nil) s).isErr = true ∧
    (exec fo (f + 1) (.cons (.getField i) .nil) s).isErr = true ∧
    (exec fo (f + 1) (.cons (.setField i) .nil) s).isErr = true ∧
    (exec fo (f + 1) (.cons (.then_ .nil .nil) .nil) s).isErr = true ∧
    (exec fo (f + 1) (.cons (.call [] [] 1) .nil) s).isErr = true ∧
    (exec fo (f + 1) (.cons .add .nil) { s with stack := [v] }).isErr = true ∧
    (exec fo (f + 1) (.cons .sub .nil) { s with stack := [v] }).isErr = true ∧
    (exec fo (f + 1) (.cons .mul .nil) { s with stack := [v] }).isErr = true ∧
    (exec fo (f + 1) (.cons .div .nil) { s with stack := [v] }).isErr = true ∧
    (exec fo (f + 1) (.cons .eq .nil) { s with stack := [v] }).isErr = true ∧
    (exec fo (f + 1) (.cons .ne .nil) { s with stack := [v] }).isErr = true ∧
    (exec fo (f + 1) (.cons .lt .nil) { s with stack := [v] }).isErr = true ∧
    (exec fo (f + 1) (.cons .le .nil) { s with stack := [v] }).isErr = true ∧
    (exec fo (f + 1) (.cons .gt .nil) { s with stack := [v] }).isErr = true ∧
    (exec fo (f + 1) (.cons .ge .nil) { s with stack := [v] }).isErr = true ∧
    (exec fo (f + 1) (.cons (.setField i) .nil) { s with stack := [v] }).isErr = true := by
  obtain ⟨st, mo, dy, lv, b1, b2, b3, hp⟩ := s
  simp only at hs
  subst hs
  exact ⟨rfl, rfl, rfl, rfl, rfl, rfl, rfl, rfl, rfl, rfl, rfl, rfl, rfl, rfl, rfl, rfl,
    rfl, rfl, rfl, rfl, rfl, rfl, rfl, rfl, rfl, rfl, rfl, rfl, rfl, rfl⟩

theorem underflow_amended_witness :
    vmEmpty.stack = [] ∧
    exec fo0 2 (.cons .pop .nil) vmEmpty = .ok vmEmpty ∧
    (exec fo0 1 (.cons .dup .nil) vmEmpty).isErr = true :=
  ⟨rfl, (underflow_amended fo0 0 vmEmpty .null 0 rfl).1,
    (underflow_amended fo0 0 vmEmpty .null 0 rfl).2.1⟩

/-- C6: when a `Call` instruction completes and the enclosing sequence
continues, the continuation state has all three control-flow flags cleared (so
a `Return` executed inside the callee never terminates the caller's sequence);
the only other possible outcomes of the `Call` arm are a fatal error or fuel
exhaustion of the embedding. -/
theorem call_clears_flags (fo : FloatOps) (f : Nat) (m fnName : Str) (n : Nat)
    (rest : Code) (s : VMState) :
    (∃ s1, s1.callReturn = false ∧ s1.callBreak = false ∧ s1.callContinue = false ∧
       exec fo (f + 1) (.cons (.call m fnName n) rest) s = exec fo f rest s1) ∨
    (∃ e, exec fo (f + 1) (.cons (.call m fnName n) rest) s = .err e) ∨
    exec fo (f + 1) (.cons (.call m fnName n) rest) s = .timeout := by
  by_cases hn : n ≤ s.stack.length
  · rcases hmod : lookupA s.modules m with _ | md
    · rcases hdy : lookupA s.dymodules m with _ | dm
      · right; left
        exact ⟨"Module not found", by simp only [exec, if_pos hn, hmod, hdy]⟩
      · rcases hfn : lookupA dm fnName with _ | nf
        · right; left
          exact ⟨"Function not found", by simp only [exec, if_pos hn, hmod, hdy, hfn]⟩
        · rcases hr : nf ((s.stack.take n).reverse) with _ | v
          · left
            refine ⟨clearFlags { s with stack := s.stack.drop n }, rfl, rfl, rfl, ?_⟩
            simp only [exec, if_pos hn, hmod, hdy, hfn, hr]
          · left
            refine ⟨clearFlags { s with stack := v :: s.stack.drop n }, rfl, rfl, rfl, ?_⟩
            simp only [exec, if_pos hn, hmod, hdy, hfn, hr]
    · rcases hfn : lookupA md fnName with _ | fnc
      · right; left
        exact ⟨"Function not found", by simp only [exec, if_pos hn, hmod, hfn]⟩
      · cases fnc with
        | native nf =>
          rcases hr : nf ((s.stack.take n).reverse) with _ | v
          · left
            refine ⟨clearFlags { s with stack := s.stack.drop n }, rfl, rfl, rfl, ?_⟩
            simp only [exec, if_pos hn, hmod, hfn, hr]
          · left
            refine ⟨clearFlags { s with stack := v :: s.stack.drop n }, rfl, rfl, rfl, ?_⟩
            simp only [exec, if_pos hn, hmod, hfn, hr]
        | code body =>
          cases hres : exec fo f body (clearFlags { s with stack := s.stack.drop n, localVars := (s.stack.take n).reverse :: s.localVars }) with
          | ok s2 =>
            left
            refine ⟨clearFlags { s2 with localVars := s2.localVars.tail }, rfl, rfl, rfl, ?_⟩
            simp only [exec, if_pos hn, hmod, hfn, hres]
          | err e =>
            right; left
            exact ⟨e, by simp only [exec, if_pos hn, hmod, hfn, hres]⟩
          | timeout =>
            right; right
            simp only [exec, if_pos hn, hmod, hfn, hres]
  · right; left
    exact ⟨"attempt to subtract with overflow", by simp only [exec, if_neg hn]⟩

/-- C5: a `Call` of a static `Code` function with `n ≤ stack` arguments runs
the callee on a fresh locals frame holding the popped arguments in push order
(local index 0 is the first-pushed of the popped arguments, i.e. the deepest
of the `n` popped stack slots); when the callee completes, that frame is
popped, so the caller's sequence continues with exactly the caller's locals —
writes to the callee's frame are invisible to the caller. -/
theorem call_frame_semantics (fo : FloatOps) (f : Nat) (m fnName : Str) (n : Nat)
    (body rest : Code) (md : VmModule) (s s2 : VMState)
    (hmod : lookupA s.modules m = some md)
    (hfn : lookupA md fnName = some (.code body))
    (hn : n ≤ s.stack.length) (hpos : 0 < n)
    (hrun : exec fo f body (clearFlags { s with stack := s.stack.drop n, localVars := (s.stack.take n).reverse :: s.localVars }) = .ok s2) :
    ((s.stack.take n).reverse)[0]? = s.stack[n - 1]? ∧
    exec fo (f + 1) (.cons (.call m fnName n) rest) s =
      exec fo f rest (clearFlags { s2 with localVars := s.localVars }) := by
  constructor
  · have hlen : (s.stack.take n).length = n := by
      rw [List.length_take]
      omega
    rw [List.getElem?_reverse (by omega), hlen]
    rw [show n - 1 - 0 = n - 1 by omega]
    rw [List.getElem?_take, if_pos (show n - 1 < n by omega)]
  · have hframes := exec_frames fo f body _ s2 hrun
    have htail : s2.localVars.tail = s.localVars := by
      simp only [clearFlags] at hframes
      rw [tail_eq_drop_one]
      simpa using hframes
    simp only [exec, if_pos hn, hmod, hfn, hrun, htail]

theorem call_frame_semantics_witness :
    (([Value.integer 2, Value.integer 1].take 2).reverse)[0]? =
      [Value.integer 2, Value.integer 1][2 - 1]? ∧
    exec fo0 (3 + 1) (.cons (.call [109] [102] 2) .nil)
      { stack := [.integer 2, .integer 1],
        modules := [([109], [([102], Fnc.code (.cons (.getLocal 0) .nil))])],
        dymodules := [], localVars := [], callBreak := false, callContinue := false,
        callReturn := false, heap := [] } =
      exec fo0 3 .nil (clearFlags
        { stack := [.integer 1],
          modules := [([109], [([102], Fnc.code (.cons (.getLocal 0) .nil))])],
          dymodules := [], localVars := [], callBreak := false, callContinue := false,
          callReturn := false, heap := [] }) :=
  call_frame_semantics fo0 3 [109] [102] 2 (.cons (.getLocal 0) .nil) .nil
    [([102], Fnc.code (.cons (.getLocal 0) .nil))]
    { stack := [.integer 2, .integer 1],
      modules := [([109], [([102], Fnc.code (.cons (.getLocal 0) .nil))])],
      dymodules := [], localVars := [], callBreak := false, callContinue := false,
      callReturn := false, heap := [] }
    { stack := [.integer 1],
      modules := [([109], [([102], Fnc.code (.cons (.getLocal 0) .nil))])],
      dymodules := [], localVars := [[.integer 1, .integer 2]], callBreak := false,
      callContinue := false, callReturn := false, heap := [] }
    rfl rfl (by decide) (by decide) rfl

theorem moduleFromCode_ok : ∀ (c : Code) (acc : List (Str × Fnc)), allFn c = true →
    ∃ mres, moduleFromCode c acc = .ok mres
  | .nil, acc, _ => ⟨acc, rfl⟩
  | .cons i rest, acc, h => by
    cases i <;> simp only [allFn] at h <;> try exact (Bool.false_ne_true h).elim
    case fn n c => exact moduleFromCode_ok rest ((n, .code c) :: acc) h

theorem resolveFns_ok (symtab : Str → Option NativeFn) :
    ∀ (c : Code) (acc : List (Str × NativeFn)), allGetFn symtab c = true →
    ∃ fns, resolveFns symtab c acc = .ok fns
  | .nil, acc, _ => ⟨acc, rfl⟩
  | .cons i rest, acc, h => by
    cases i <;> simp only [allGetFn, Bool.and_eq_true] at h <;>
      try exact (Bool.false_ne_true h).elim
    case getFunction name al =>
      obtain ⟨h1, h2⟩ := h
      rcases hsym : symtab name with _ | fval
      · rw [hsym] at h1
        exact absurd h1 (by simp)
      · cases al with
        | none =>
          obtain ⟨fns, hf⟩ := resolveFns_ok symtab rest ((name, fval) :: acc) h2
          exact ⟨fns, by simp only [resolveFns, hsym, hf]⟩
        | some aa =>
          obtain ⟨fns, hf⟩ := resolveFns_ok symtab rest ((aa, fval) :: acc) h2
          exact ⟨fns, by simp only [resolveFns, hsym, hf]⟩

theorem loadDecls_ok (libs : Str → Option (Str → Option NativeFn)) :
    ∀ (d : Code), wfDecls libs d = true → ∃ r, loadDecls libs d = .ok r
  | .nil, _ => ⟨([], []), rfl⟩
  | .cons i rest, h => by
    cases i <;> simp only [wfDecls, Bool.and_eq_true] at h <;>
      try exact (Bool.false_ne_true h.1).elim
    case module name c =>
      obtain ⟨h1, h2⟩ := h
      obtain ⟨mres, hm⟩ := moduleFromCode_ok c [] h1
      obtain ⟨⟨ms, ds⟩, hr⟩ := loadDecls_ok libs rest h2
      exact ⟨(mres :: ms, ds), by simp only [loadDecls, hm, hr]⟩
    case loadModule name c =>
      obtain ⟨h1, h2⟩ := h
      rcases hlib : libs name with _ | symtab
      · rw [hlib] at h1
        exact absurd h1 (by simp)
      · rw [hlib] at h1
        obtain ⟨fns, hf⟩ := resolveFns_ok symtab c [] h1
        obtain ⟨⟨ms, ds⟩, hr⟩ := loadDecls_ok libs rest h2
        exact ⟨(ms, fns :: ds), by simp only [loadDecls, hlib, hf, hr]⟩

/-- C4: for a top-level `Code` whose declarations are well formed (each a
`Module` of `Fn` children, or a `LoadModule` whose library opens and whose
symbols all resolve), loading succeeds if and only if the first instruction is
a `Version` whose `(major, minor, patch)` triple exactly equals the host's;
and an empty program (no first instruction) is an error. -/
theorem version_gate (host : Nat × Nat × Nat) (libs : Str → Option (Str → Option NativeFn))
    (v : Instruction) (decls : Code) (hwf : wfDecls libs decls = true) :
    ((∃ r, loadModules host libs (.cons v decls) = .ok r) ↔
      headVersionEq host (.cons v decls) = true) ∧
    loadModules host libs .nil = .error "Missing version" := by
  refine ⟨⟨?_, ?_⟩, rfl⟩
  · rintro ⟨r, hr⟩
    cases v <;> simp only [loadModules] at hr <;> try exact Except.noConfusion hr
    case version ma mi pa =>
      by_cases hv : ma ≠ host.1 ∨ mi ≠ host.2.1 ∨ pa ≠ host.2.2
      · rw [if_pos hv] at hr
        exact Except.noConfusion hr
      · push_neg at hv
        obtain ⟨e1, e2, e3⟩ := hv
        simp [headVersionEq, e1, e2, e3]
  · intro hv
    cases v <;> simp only [headVersionEq] at hv <;> try exact (Bool.false_ne_true hv).elim
    case version ma mi pa =>
      simp only [Bool.and_eq_true, decide_eq_true_eq] at hv
      obtain ⟨⟨e1, e2⟩, e3⟩ := hv
      simp only [loadModules]
      rw [if_neg (by push_neg; exact ⟨e1, e2, e3⟩)]
      exact loadDecls_ok libs decls hwf

theorem version_gate_witness :
    wfDecls (fun _ => none) (.cons (.module [109] (.cons (.fn [102] .nil) .nil)) .nil) = true ∧
    (((∃ r, loadModules (1, 2, 3) (fun _ => none)
        (.cons (.version 1 2 3)
          (.cons (.module [109] (.cons (.fn [102] .nil) .nil)) .nil)) = .ok r) ↔
      headVersionEq (1, 2, 3)
        (.cons (.version 1 2 3)
          (.cons (.module [109] (.cons (.fn [102] .nil) .nil)) .nil)) = true) ∧
      loadModules (1, 2, 3) (fun _ => none) .nil = .error "Missing version") :=
  ⟨by decide, version_gate (1, 2, 3) (fun _ => none) (.version 1 2 3)
    (.cons (.module [109] (.cons (.fn [102] .nil) .nil)) .nil) (by decide)⟩
